import Mathlib

/-!
# Pico Sound Explorer: waveform generator and ADSR envelope

A shallow embedding of `src/src/waveform_generator.c`, `src/src/adsr_envelope.c`
and the state structure of `src/include/sound_explorer.h`.

Modelling conventions.

* A C `float` is an IEEE 754 binary32 value, modelled by the type `f32`: a
  finite value (a rational), an infinity with its sign, or NaN.  Every
  arithmetic operation computes the exact rational result and rounds it to the
  nearest binary32 value, ties to even, with gradual underflow and overflow to
  infinity (`f32.round`).  Each C operation is rounded on its own (no fused
  multiply-add).  The two zeros are one value: the code never divides by a
  variable that can be zero, so the sign of a zero cannot be observed.
* `uint8_t`, `uint16_t` and `uint32_t` values are natural numbers; every place
  where the C code narrows or wraps carries an explicit `% 2 ^ w`.
* A C cast from `float` to an unsigned integer type discards the fractional
  part (truncation toward zero).  The model reduces the truncated value
  modulo `2 ^ w`; inside the range of the target type this is the C result.
  C leaves the cast of an infinity or a NaN undefined; the model returns 0.
* Hardware calls (`pwm_clear_irq`, `pwm_set_gpio_level`, `printf`) do not touch
  the `sound_system_t` state; the level written by `pwm_set_gpio_level` is
  returned as the emitted value of the interrupt handler.
-/

namespace SoundExplorer

/-! ## Binary32 arithmetic -/

/-- A binary32 value: finite, infinite (with `negative` for `-inf`) or NaN. -/
inductive f32 where
  | fin (q : ℚ)
  | inf (negative : Bool)
  | nan
  deriving DecidableEq, Repr

/-- The integer nearest to `x`, ties to the even integer. -/
def round_half_even (x : ℚ) : Int :=
  if x - ⌊x⌋ < 1 / 2 then ⌊x⌋
  else if 1 / 2 < x - ⌊x⌋ then ⌊x⌋ + 1
  else if ⌊x⌋ % 2 = 0 then ⌊x⌋ else ⌊x⌋ + 1

/-- The binary exponent that binary32 uses for `x`: `⌊log2 |x|⌋`, but never
below `-126` (subnormal range). -/
def f32_exponent (x : ℚ) : Int :=
  if x = 0 then -126 else max (Int.log 2 |x|) (-126)

/-- The spacing of binary32 values around `x` (24 significant bits). -/
def f32_quantum (x : ℚ) : ℚ :=
  (2 : ℚ) ^ (f32_exponent x - 23)

/-- Rounding of a non-negative rational to the binary32 grid, exponent
unbounded above. -/
def f32_nearest_mag (x : ℚ) : ℚ :=
  (round_half_even (x / f32_quantum x) : ℚ) * f32_quantum x

/-- Rounding of a rational to the binary32 grid, exponent unbounded above. -/
def f32_nearest (x : ℚ) : ℚ :=
  if 0 ≤ x then f32_nearest_mag x else -f32_nearest_mag (-x)

/-- The largest finite binary32 value, `(2^24 - 1) * 2^104`. -/
def f32_max : ℚ := 340282346638528859811704183484516925440

/-- The binary32 result of an operation whose exact result is `x`. -/
def f32.round (x : ℚ) : f32 :=
  if (2 : ℚ) ^ 128 ≤ f32_nearest x then f32.inf false
  else if f32_nearest x ≤ -(2 : ℚ) ^ 128 then f32.inf true
  else f32.fin (f32_nearest x)

/-- Unary minus. -/
def f32.neg : f32 → f32
  | f32.fin a => f32.fin (-a)
  | f32.inf n => f32.inf (!n)
  | f32.nan => f32.nan

/-- The C operator `+` on floats. -/
def f32.add : f32 → f32 → f32
  | f32.fin a, f32.fin b => f32.round (a + b)
  | f32.fin _, f32.inf n => f32.inf n
  | f32.inf n, f32.fin _ => f32.inf n
  | f32.inf n, f32.inf m => if n = m then f32.inf n else f32.nan
  | f32.nan, _ => f32.nan
  | _, f32.nan => f32.nan

/-- The C operator `-` on floats. -/
def f32.sub (a b : f32) : f32 :=
  f32.add a (f32.neg b)

/-- The C operator `*` on floats. -/
def f32.mul : f32 → f32 → f32
  | f32.fin a, f32.fin b => f32.round (a * b)
  | f32.fin a, f32.inf n => if a = 0 then f32.nan else f32.inf (xor (decide (a < 0)) n)
  | f32.inf n, f32.fin b => if b = 0 then f32.nan else f32.inf (xor n (decide (b < 0)))
  | f32.inf n, f32.inf m => f32.inf (xor n m)
  | f32.nan, _ => f32.nan
  | _, f32.nan => f32.nan

/-- The C operator `/` on floats.  A finite value divided by zero gives an
infinity whose sign is taken from the numerator alone (zeros are unsigned in
this model). -/
def f32.div : f32 → f32 → f32
  | f32.fin a, f32.fin b =>
    if b = 0 then (if a = 0 then f32.nan else f32.inf (decide (a < 0)))
    else f32.round (a / b)
  | f32.fin _, f32.inf _ => f32.fin 0
  | f32.inf n, f32.fin b => f32.inf (xor n (decide (b < 0)))
  | f32.inf _, f32.inf _ => f32.nan
  | f32.nan, _ => f32.nan
  | _, f32.nan => f32.nan

/-- The C operator `<` on floats; false when an operand is NaN. -/
def f32.lt : f32 → f32 → Bool
  | f32.fin a, f32.fin b => decide (a < b)
  | f32.fin _, f32.inf n => !n
  | f32.inf n, f32.fin _ => n
  | f32.inf n, f32.inf m => n && !m
  | f32.nan, _ => false
  | _, f32.nan => false

/-- The C operator `<=` on floats; false when an operand is NaN. -/
def f32.le : f32 → f32 → Bool
  | f32.fin a, f32.fin b => decide (a ≤ b)
  | f32.fin _, f32.inf n => !n
  | f32.inf n, f32.fin _ => n
  | f32.inf n, f32.inf m => n || !m
  | f32.nan, _ => false
  | _, f32.nan => false

/-- The C operator `>` on floats. -/
def f32.gt (a b : f32) : Bool := f32.lt b a

/-- The C operator `>=` on floats. -/
def f32.ge (a b : f32) : Bool := f32.le b a

/-- The conversion of an `int` to `float`. -/
def f32.of_int (n : Int) : f32 :=
  f32.round (n : ℚ)

/-- The float constant `0.0f`. -/
def f32.zero : f32 := f32.fin 0

/-- The float constant `1.0f`. -/
def f32.one : f32 := f32.fin 1

/-! ## Constants and types of `sound_explorer.h` -/

/-- Audio sample rate, `#define SAMPLE_RATE 44100`. -/
def SAMPLE_RATE : Nat := 44100

/-- Lower end of the frequency band, `#define MIN_FREQUENCY 20`. -/
def MIN_FREQUENCY : Nat := 20

/-- Upper end of the frequency band, `#define MAX_FREQUENCY 20000`. -/
def MAX_FREQUENCY : Nat := 20000

/-- The enum `waveform_type_t` is stored as its numeric value, so that values
outside the four named kinds can be represented. -/
abbrev waveform_type_t := Nat

/-- Enumerator `WAVEFORM_SQUARE = 0`. -/
def WAVEFORM_SQUARE : waveform_type_t := 0

/-- Enumerator `WAVEFORM_SAWTOOTH`. -/
def WAVEFORM_SAWTOOTH : waveform_type_t := 2

/-- Enumerator `WAVEFORM_SINE`. -/
def WAVEFORM_SINE : waveform_type_t := 3

/-- The enum `adsr_state_t`. -/
inductive adsr_state_t where
  | ADSR_IDLE
  | ADSR_ATTACK
  | ADSR_DECAY
  | ADSR_SUSTAIN
  | ADSR_RELEASE
  deriving DecidableEq, Repr

open adsr_state_t

/-- The struct `sound_system_t`, field by field. -/
structure sound_system_t where
  current_waveform : waveform_type_t
  frequency : f32
  duty_cycle : f32
  output_enabled : Bool
  phase_accumulator : Nat
  phase_increment : Nat
  attack_time : f32
  decay_time : f32
  sustain_level : f32
  release_time : f32
  adsr_state : adsr_state_t
  envelope_level : f32
  adsr_timer : f32
  waveform_button_pressed : Bool
  output_button_pressed : Bool
  last_waveform_press : Nat
  last_output_press : Nat
  deriving DecidableEq, Repr

/-- The initialiser of the global `g_sound_system` in `main.c`.  The decimal
literals `0.1f`, `0.2f`, `0.7f` and `0.3f` stand for their binary32 values. -/
def g_sound_system : sound_system_t where
  current_waveform := WAVEFORM_SQUARE
  frequency := f32.fin 440
  duty_cycle := f32.fin (1 / 2)
  output_enabled := false
  phase_accumulator := 0
  phase_increment := 0
  attack_time := f32.fin (13421773 / 134217728)
  decay_time := f32.fin (13421773 / 67108864)
  sustain_level := f32.fin (11744051 / 16777216)
  release_time := f32.fin (5033165 / 16777216)
  adsr_state := ADSR_IDLE
  envelope_level := f32.fin 0
  adsr_timer := f32.fin 0
  waveform_button_pressed := false
  output_button_pressed := false
  last_waveform_press := 0
  last_output_press := 0

/-! ## Casts -/

/-- The integer part of a rational, rounding toward zero (C float-to-integer
conversion). -/
def float_trunc (x : ℚ) : Int :=
  if 0 ≤ x then ⌊x⌋ else ⌈x⌉

/-- A cast `(uintW_t)x` of a finite float `x`: truncate toward zero, keep `w`
bits. -/
def float_to_uint (w : Nat) (x : ℚ) : Nat :=
  (float_trunc x % (2 : Int) ^ w).toNat

/-- A cast `(uintW_t)x` of a float `x`. -/
def f32.to_uint (w : Nat) : f32 → Nat
  | f32.fin q => float_to_uint w q
  | f32.inf _ => 0
  | f32.nan => 0

/-- A cast `(uint8_t)n` of an `int` value `n`. -/
def int_to_uint8 (n : Int) : Nat :=
  (n % 256).toNat

/-! ## `adsr_envelope.c` -/

/-- The function `adsr_note_on`. -/
def adsr_note_on (system : sound_system_t) : sound_system_t :=
  { system with adsr_state := ADSR_ATTACK, adsr_timer := f32.zero }

/-- The function `adsr_note_off`. -/
def adsr_note_off (system : sound_system_t) : sound_system_t :=
  if system.adsr_state ≠ ADSR_IDLE then
    { system with adsr_state := ADSR_RELEASE, adsr_timer := f32.zero }
  else
    system

/-- The `switch (system->adsr_state)` of `adsr_update`, entered after
`adsr_timer` has been advanced. -/
def adsr_update_switch (system : sound_system_t) : sound_system_t :=
  match system.adsr_state with
  | ADSR_IDLE => { system with envelope_level := f32.zero }
  | ADSR_ATTACK =>
    if f32.gt system.attack_time f32.zero then
      let system1 :=
        { system with envelope_level := f32.div system.adsr_timer system.attack_time }
      if f32.ge system1.envelope_level f32.one then
        { system1 with envelope_level := f32.one, adsr_state := ADSR_DECAY,
                       adsr_timer := f32.zero }
      else
        system1
    else
      { system with envelope_level := f32.one, adsr_state := ADSR_DECAY,
                    adsr_timer := f32.zero }
  | ADSR_DECAY =>
    if f32.gt system.decay_time f32.zero then
      let decay_progress := f32.div system.adsr_timer system.decay_time
      if f32.ge decay_progress f32.one then
        { system with envelope_level := system.sustain_level,
                      adsr_state := ADSR_SUSTAIN, adsr_timer := f32.zero }
      else
        { system with
          envelope_level :=
            f32.sub f32.one (f32.mul decay_progress (f32.sub f32.one system.sustain_level)) }
    else
      { system with envelope_level := system.sustain_level,
                    adsr_state := ADSR_SUSTAIN, adsr_timer := f32.zero }
  | ADSR_SUSTAIN => { system with envelope_level := system.sustain_level }
  | ADSR_RELEASE =>
    if f32.gt system.release_time f32.zero then
      let release_progress := f32.div system.adsr_timer system.release_time
      if f32.ge release_progress f32.one then
        { system with envelope_level := f32.zero, adsr_state := ADSR_IDLE,
                      adsr_timer := f32.zero }
      else
        let start_level := system.sustain_level
        { system with
          envelope_level := f32.mul start_level (f32.sub f32.one release_progress) }
    else
      { system with envelope_level := f32.zero, adsr_state := ADSR_IDLE,
                    adsr_timer := f32.zero }

/-- The two clamping statements that end `adsr_update`. -/
def adsr_update_clamp (system : sound_system_t) : sound_system_t :=
  let system1 :=
    if f32.lt system.envelope_level f32.zero then
      { system with envelope_level := f32.zero }
    else system
  if f32.gt system1.envelope_level f32.one then
    { system1 with envelope_level := f32.one }
  else system1

/-- The function `adsr_update`. -/
def adsr_update (system : sound_system_t) (delta_time : f32) : sound_system_t :=
  let system1 := { system with adsr_timer := f32.add system.adsr_timer delta_time }
  adsr_update_clamp (adsr_update_switch system1)

/-- The function `adsr_get_level`. -/
def adsr_get_level (system : sound_system_t) : f32 :=
  system.envelope_level

/-- One call of the envelope interface made by the control loop. -/
inductive adsr_call where
  | note_on
  | note_off
  | update (delta_time : f32)
  deriving DecidableEq, Repr

/-- Perform one envelope call on a state. -/
def adsr_call.run : adsr_call → sound_system_t → sound_system_t
  | adsr_call.note_on, system => adsr_note_on system
  | adsr_call.note_off, system => adsr_note_off system
  | adsr_call.update delta_time, system => adsr_update system delta_time

/-- The states reached after each call of a sequence, in order. -/
def adsr_trace (system : sound_system_t) : List adsr_call → List sound_system_t
  | [] => []
  | c :: cs => c.run system :: adsr_trace (c.run system) cs

/-- The state reached after a whole sequence of calls. -/
def adsr_run (system : sound_system_t) : List adsr_call → sound_system_t
  | [] => system
  | c :: cs => adsr_run (c.run system) cs

/-! ## `waveform_generator.c` -/

/-- The 256-entry table `sine_table`. -/
def sine_table : List Nat := [
  128, 131, 134, 137, 140, 143, 146, 149, 152, 155, 158, 162, 165, 167, 170, 173,
  176, 179, 182, 185, 188, 190, 193, 196, 198, 201, 203, 206, 208, 211, 213, 215,
  218, 220, 222, 224, 226, 228, 230, 232, 234, 235, 237, 238, 240, 241, 243, 244,
  245, 246, 248, 249, 250, 250, 251, 252, 253, 253, 254, 254, 254, 255, 255, 255,
  255, 255, 255, 255, 254, 254, 254, 253, 253, 252, 251, 250, 250, 249, 248, 246,
  245, 244, 243, 241, 240, 238, 237, 235, 234, 232, 230, 228, 226, 224, 222, 220,
  218, 215, 213, 211, 208, 206, 203, 201, 198, 196, 193, 190, 188, 185, 182, 179,
  176, 173, 170, 167, 165, 162, 158, 155, 152, 149, 146, 143, 140, 137, 134, 131,
  128, 124, 121, 118, 115, 112, 109, 106, 103, 100,  97,  93,  90,  88,  85,  82,
   79,  76,  73,  70,  67,  65,  62,  59,  57,  54,  52,  49,  47,  44,  42,  40,
   37,  35,  33,  31,  29,  27,  25,  23,  21,  20,  18,  17,  15,  14,  12,  11,
   10,   9,   7,   6,   5,   5,   4,   3,   2,   2,   1,   1,   1,   0,   0,   0,
    0,   0,   0,   0,   1,   1,   1,   2,   2,   3,   4,   5,   5,   6,   7,   9,
   10,  11,  12,  14,  15,  17,  18,  20,  21,  23,  25,  27,  29,  31,  33,  35,
   37,  40,  42,  44,  47,  49,  52,  54,  57,  59,  62,  65,  67,  70,  73,  76,
   79,  82,  85,  88,  90,  93,  97, 100, 103, 106, 109, 112, 115, 118, 121, 124]

/-- The function `generate_square_wave`; `phase` is a `uint16_t`. -/
def generate_square_wave (phase : Nat) (duty_cycle : f32) : Nat :=
  let duty_threshold := f32.to_uint 16 (f32.mul duty_cycle (f32.of_int 65535))
  if phase < duty_threshold then 255 else 0

/-- The `int` product that `generate_triangle_wave` forms before dividing by
32767: `phase * 255` on the rising half, `(phase - 32768) * 255` on the falling
half. -/
def triangle_product (phase : Nat) : Int :=
  if phase < 32768 then (phase : Int) * 255 else ((phase : Int) - 32768) * 255

/-- The `int` expression that `generate_triangle_wave` computes before its
cast to `uint8_t`. -/
def triangle_value (phase : Nat) : Int :=
  if phase < 32768 then
    ((phase : Int) * 255) / 32767
  else
    255 - ((((phase : Int) - 32768) * 255) / 32767)

/-- The function `generate_triangle_wave`; `phase` is a `uint16_t`. -/
def generate_triangle_wave (phase : Nat) : Nat :=
  int_to_uint8 (triangle_value phase)

/-- The function `generate_sawtooth_wave`; `phase` is a `uint16_t`. -/
def generate_sawtooth_wave (phase : Nat) : Nat :=
  (phase >>> 8) % 256

/-- The function `generate_sine_wave`; `phase` is a `uint16_t`. -/
def generate_sine_wave (phase : Nat) : Nat :=
  let table_index := (phase >>> 8) % 256
  sine_table.getD table_index 0

/-- The `switch (system->current_waveform)` of `generate_waveform_sample`:
the raw byte of the selected generator. -/
def base_waveform_sample (system : sound_system_t) (phase : Nat) : Nat :=
  match system.current_waveform with
  | 0 => generate_square_wave phase system.duty_cycle
  | 1 => generate_triangle_wave phase
  | 2 => generate_sawtooth_wave phase
  | 3 => generate_sine_wave phase
  | _ => 128

/-- The float expression `(sample - 128) * envelope_level + 128` of
`generate_waveform_sample`, before its cast to `uint8_t`: the `int`
difference is converted to float, the product and the sum are each rounded. -/
def envelope_value (sample : Nat) (envelope_level : f32) : f32 :=
  f32.add (f32.mul (f32.of_int ((sample : Int) - 128)) envelope_level) (f32.of_int 128)

/-- The envelope step `sample = (uint8_t)((sample - 128) * envelope_level + 128)`. -/
def apply_envelope (sample : Nat) (envelope_level : f32) : Nat :=
  f32.to_uint 8 (envelope_value sample envelope_level)

/-- The function `generate_waveform_sample`. -/
def generate_waveform_sample (system : sound_system_t) : Nat :=
  let phase := (system.phase_accumulator >>> 16) % 65536
  let sample := base_waveform_sample system phase
  let envelope_level := adsr_get_level system
  apply_envelope sample envelope_level

/-- The function `update_phase_accumulator`: the product and the quotient are
each rounded to binary32 before the cast. -/
def update_phase_accumulator (system : sound_system_t) : sound_system_t :=
  { system with
    phase_increment :=
      f32.to_uint 32
        (f32.div (f32.mul system.frequency (f32.fin 4294967296)) (f32.of_int SAMPLE_RATE)) }

/-- The function `pwm_interrupt_handler` on the global state: the level
written to the PWM output and the state afterwards. -/
def pwm_interrupt_handler (system : sound_system_t) : Nat × sound_system_t :=
  if system.output_enabled then
    let sample := generate_waveform_sample system
    (sample, { system with
      phase_accumulator := (system.phase_accumulator + system.phase_increment) % 2 ^ 32 })
  else
    (128, system)

/-! ## Reference notions used to state the specification -/

/-- A float that is neither an infinity nor a NaN. -/
def f32.is_finite (x : f32) : Prop :=
  ∃ q : ℚ, x = f32.fin q ∧ |q| ≤ f32_max

/-- A float that is non-negative: `+inf` or a finite value `≥ 0`. -/
def f32.is_nonneg (x : f32) : Prop :=
  x = f32.inf false ∨ ∃ q : ℚ, x = f32.fin q ∧ 0 ≤ q

/-- A float that lies in the interval `[0, 1]`. -/
def f32.in_unit (x : f32) : Prop :=
  ∃ q : ℚ, x = f32.fin q ∧ 0 ≤ q ∧ q ≤ 1

/-- The smaller of two floats, as `(b <= a) ? b : a`. -/
def f32.min (a b : f32) : f32 :=
  if f32.le b a then b else a

/-- An envelope call whose time step, if it has one, is non-negative. -/
def adsr_call.nonneg_step : adsr_call → Prop
  | adsr_call.update delta_time => delta_time.is_nonneg
  | _ => True

/-- The four envelope parameters are finite floats. -/
def sound_system_t.finite_params (s : sound_system_t) : Prop :=
  s.attack_time.is_finite ∧ s.decay_time.is_finite ∧
  s.sustain_level.is_finite ∧ s.release_time.is_finite

/-- Clamp an integer to the byte range `[0, 255]`. -/
def clamp_byte (n : Int) : Int :=
  max 0 (min 255 n)

/-- Rounding to the nearest integer, as the specification words the mixer
and the phase increment. -/
def spec_round (x : ℚ) : Int :=
  round x

/-- The mixer as the specification words it:
`round((raw - 128) * level + 128)` clamped to `[0, 255]`. -/
def spec_mix (raw : Nat) (level : ℚ) : Int :=
  clamp_byte (spec_round (((raw : ℚ) - 128) * level + 128))

/-- The phase increment as the specification words it:
`round(f * 2^32 / sampleRate)`. -/
def spec_increment (f : ℚ) : Int :=
  spec_round (f * 2 ^ 32 / (SAMPLE_RATE : ℚ))

/-- Every field other than `adsr_state` and `adsr_timer` has the same value
in `t` as in `s`. -/
def sound_system_t.same_outside_stage (s t : sound_system_t) : Prop :=
  t.envelope_level = s.envelope_level ∧
  t.attack_time = s.attack_time ∧ t.decay_time = s.decay_time ∧
  t.sustain_level = s.sustain_level ∧ t.release_time = s.release_time ∧
  t.current_waveform = s.current_waveform ∧ t.duty_cycle = s.duty_cycle ∧
  t.output_enabled = s.output_enabled ∧
  t.phase_accumulator = s.phase_accumulator ∧ t.phase_increment = s.phase_increment ∧
  t.frequency = s.frequency ∧
  t.waveform_button_pressed = s.waveform_button_pressed ∧
  t.output_button_pressed = s.output_button_pressed ∧
  t.last_waveform_press = s.last_waveform_press ∧
  t.last_output_press = s.last_output_press

/-- The square wave as the specification words it: 255 while
`phaseIndex < dutyCycle * 65536`, else 0. -/
def spec_square (phase : Nat) (duty_cycle : ℚ) : Nat :=
  if (phase : ℚ) < duty_cycle * 65536 then 255 else 0

end SoundExplorer

/-! ## Theorems -/

namespace SoundExplorer

open adsr_state_t

/-! ### Binary32 rounding -/

theorem round_half_even_cases (x : ℚ) :
    round_half_even x = ⌊x⌋ ∨ round_half_even x = ⌊x⌋ + 1 := by
  unfold round_half_even
  split_ifs <;> simp

theorem floor_le_round_half_even (x : ℚ) : ⌊x⌋ ≤ round_half_even x := by
  rcases round_half_even_cases x with h | h <;> omega

theorem round_half_even_le_floor_succ (x : ℚ) : round_half_even x ≤ ⌊x⌋ + 1 := by
  rcases round_half_even_cases x with h | h <;> omega

theorem round_half_even_intCast (n : Int) : round_half_even (n : ℚ) = n := by
  unfold round_half_even
  simp

theorem round_half_even_abs_sub_le (x : ℚ) : |(round_half_even x : ℚ) - x| ≤ 1 / 2 := by
  have h1 : (⌊x⌋ : ℚ) ≤ x := Int.floor_le x
  have h2 : x < ⌊x⌋ + 1 := Int.lt_floor_add_one x
  unfold round_half_even
  rw [abs_le]
  split_ifs with ha hb hc
  · constructor <;> linarith
  · push_cast; constructor <;> linarith
  · constructor <;> linarith
  · push_cast; constructor <;> linarith

theorem round_half_even_eq_of_lt (x : ℚ) (n : Int)
    (h1 : (n : ℚ) - 1 / 2 < x) (h2 : x < n + 1 / 2) : round_half_even x = n := by
  have h := round_half_even_abs_sub_le x
  rw [abs_le] at h
  have ha : ((round_half_even x : Int) : ℚ) < ((n + 1 : Int) : ℚ) := by
    push_cast; linarith
  have hb : ((n - 1 : Int) : ℚ) < ((round_half_even x : Int) : ℚ) := by
    push_cast; linarith
  have ha2 : round_half_even x < n + 1 := by exact_mod_cast ha
  have hb2 : n - 1 < round_half_even x := by exact_mod_cast hb
  omega

theorem round_half_even_mono {x y : ℚ} (h : x ≤ y) :
    round_half_even x ≤ round_half_even y := by
  have hf : ⌊x⌋ ≤ ⌊y⌋ := Int.floor_mono h
  rcases lt_or_eq_of_le hf with hlt | heq
  · have h1 := round_half_even_le_floor_succ x
    have h2 := floor_le_round_half_even y
    omega
  · unfold round_half_even
    rw [heq]
    have hxy : x - ⌊y⌋ ≤ y - ⌊y⌋ := by linarith
    split_ifs <;> first | omega | (exfalso; linarith)

theorem round_half_even_nonneg {x : ℚ} (h : 0 ≤ x) : 0 ≤ round_half_even x := by
  have := round_half_even_mono h
  rw [show ((0 : ℚ)) = ((0 : Int) : ℚ) by norm_num, round_half_even_intCast] at this
  exact this


theorem f32_exponent_ge (x : ℚ) : -126 ≤ f32_exponent x := by
  unfold f32_exponent
  split
  · exact le_refl _
  · exact le_max_right _ _

theorem f32_exponent_neg (x : ℚ) : f32_exponent (-x) = f32_exponent x := by
  unfold f32_exponent
  simp

theorem abs_lt_zpow_exponent_succ (x : ℚ) : |x| < (2 : ℚ) ^ (f32_exponent x + 1) := by
  unfold f32_exponent
  split
  · rename_i h
    rw [h]
    simp only [abs_zero]
    exact zpow_pos (by norm_num) _
  · have h1 := Int.lt_zpow_succ_log_self (b := 2) (by norm_num) |x|
    simp only [Nat.cast_ofNat] at h1
    refine lt_of_lt_of_le h1 ?_
    apply zpow_le_zpow_right₀ (by norm_num)
    have := le_max_left (Int.log 2 |x|) (-126)
    omega

theorem zpow_exponent_le_abs (x : ℚ) (h : -126 < f32_exponent x) :
    (2 : ℚ) ^ f32_exponent x ≤ |x| := by
  unfold f32_exponent at h ⊢
  split
  · rename_i h0
    rw [if_pos h0] at h
    omega
  · rename_i h0
    rw [if_neg h0] at h
    have hx : 0 < |x| := abs_pos.mpr h0
    have hlog : max (Int.log 2 |x|) (-126) = Int.log 2 |x| := by
      apply max_eq_left
      rcases le_total (Int.log 2 |x|) (-126) with h1 | h1
      · rw [max_eq_right h1] at h; omega
      · exact h1
    rw [hlog]
    have := Int.zpow_log_le_self (b := 2) (by norm_num) hx
    simpa using this

theorem f32_exponent_eq (x : ℚ) (e : Int) (he : -126 ≤ e)
    (h1 : (2 : ℚ) ^ e ≤ |x|) (h2 : |x| < (2 : ℚ) ^ (e + 1)) : f32_exponent x = e := by
  have hx : 0 < |x| := lt_of_lt_of_le (zpow_pos (by norm_num) _) h1
  have h0 : x ≠ 0 := abs_pos.mp hx
  unfold f32_exponent
  rw [if_neg h0]
  have ha : e ≤ Int.log 2 |x| := by
    rw [← Int.zpow_le_iff_le_log (by norm_num) hx]
    simpa using h1
  have hb : Int.log 2 |x| < e + 1 := by
    rw [← Int.lt_zpow_iff_log_lt (by norm_num) hx]
    simpa using h2
  rw [max_eq_left (by omega)]
  omega

theorem f32_exponent_subnormal (x : ℚ) (h : |x| < (2 : ℚ) ^ (-126 : Int)) :
    f32_exponent x = -126 := by
  unfold f32_exponent
  split
  · rfl
  · rename_i h0
    have hx : 0 < |x| := abs_pos.mpr h0
    have hb : Int.log 2 |x| < -126 := by
      rw [← Int.lt_zpow_iff_log_lt (by norm_num) hx]
      simpa using h
    exact max_eq_right (le_of_lt hb)

theorem f32_exponent_mono {x y : ℚ} (h : |x| ≤ |y|) : f32_exponent x ≤ f32_exponent y := by
  by_cases hx : x = 0
  · unfold f32_exponent
    rw [if_pos hx]
    split
    · exact le_refl _
    · exact le_max_right _ _
  · have hx0 : 0 < |x| := abs_pos.mpr hx
    have hy : y ≠ 0 := abs_pos.mp (lt_of_lt_of_le hx0 h)
    unfold f32_exponent
    rw [if_neg hx, if_neg hy]
    exact max_le_max (Int.log_mono_right hx0 h) (le_refl _)

theorem f32_quantum_pos (x : ℚ) : 0 < f32_quantum x :=
  zpow_pos (by norm_num) _

theorem f32_nearest_mag_nonneg {x : ℚ} (h : 0 ≤ x) : 0 ≤ f32_nearest_mag x := by
  unfold f32_nearest_mag
  apply mul_nonneg
  · exact_mod_cast round_half_even_nonneg (div_nonneg h (le_of_lt (f32_quantum_pos x)))
  · exact le_of_lt (f32_quantum_pos x)

theorem f32_nearest_mag_mono {x y : ℚ} (hx : 0 ≤ x) (h : x ≤ y) :
    f32_nearest_mag x ≤ f32_nearest_mag y := by
  have hy : 0 ≤ y := le_trans hx h
  have habs : |x| ≤ |y| := by rw [abs_of_nonneg hx, abs_of_nonneg hy]; exact h
  have he := f32_exponent_mono habs
  rcases lt_or_eq_of_le he with hlt | heq
  · -- different binades: a power of two lies between the two roundings
    have hxlt := abs_lt_zpow_exponent_succ x
    rw [abs_of_nonneg hx] at hxlt
    have hyge := zpow_exponent_le_abs y (by have := f32_exponent_ge x; omega)
    rw [abs_of_nonneg hy] at hyge
    have hqx : 16777216 * f32_quantum x = (2 : ℚ) ^ (f32_exponent x + 1) := by
      unfold f32_quantum
      rw [show (16777216 : ℚ) = (2 : ℚ) ^ (24 : Int) by norm_num, ← zpow_add₀ (by norm_num)]
      congr 1; ring
    have hqy : 8388608 * f32_quantum y = (2 : ℚ) ^ f32_exponent y := by
      unfold f32_quantum
      rw [show (8388608 : ℚ) = (2 : ℚ) ^ (23 : Int) by norm_num, ← zpow_add₀ (by norm_num)]
      congr 1; ring
    have h1 : f32_nearest_mag x ≤ (2 : ℚ) ^ (f32_exponent x + 1) := by
      unfold f32_nearest_mag
      have hdiv : x / f32_quantum x ≤ ((16777216 : Int) : ℚ) := by
        rw [div_le_iff₀ (f32_quantum_pos x)]
        push_cast
        rw [hqx]
        exact le_of_lt hxlt
      have hr := round_half_even_mono hdiv
      rw [round_half_even_intCast] at hr
      have hr2 : ((round_half_even (x / f32_quantum x) : Int) : ℚ) ≤ 16777216 := by
        exact_mod_cast hr
      calc (round_half_even (x / f32_quantum x) : ℚ) * f32_quantum x
          ≤ 16777216 * f32_quantum x :=
            mul_le_mul_of_nonneg_right hr2 (le_of_lt (f32_quantum_pos x))
        _ = (2 : ℚ) ^ (f32_exponent x + 1) := hqx
    have h2 : (2 : ℚ) ^ f32_exponent y ≤ f32_nearest_mag y := by
      unfold f32_nearest_mag
      have hdiv : ((8388608 : Int) : ℚ) ≤ y / f32_quantum y := by
        rw [le_div_iff₀ (f32_quantum_pos y)]
        push_cast
        rw [hqy]
        exact hyge
      have hr := round_half_even_mono hdiv
      rw [round_half_even_intCast] at hr
      have hr2 : (8388608 : ℚ) ≤ ((round_half_even (y / f32_quantum y) : Int) : ℚ) := by
        exact_mod_cast hr
      calc (2 : ℚ) ^ f32_exponent y = 8388608 * f32_quantum y := hqy.symm
        _ ≤ (round_half_even (y / f32_quantum y) : ℚ) * f32_quantum y :=
            mul_le_mul_of_nonneg_right hr2 (le_of_lt (f32_quantum_pos y))
    have h3 : (2 : ℚ) ^ (f32_exponent x + 1) ≤ (2 : ℚ) ^ f32_exponent y :=
      zpow_le_zpow_right₀ (by norm_num) (by omega)
    linarith
  · have hq : f32_quantum x = f32_quantum y := by unfold f32_quantum; rw [heq]
    unfold f32_nearest_mag
    rw [hq]
    apply mul_le_mul_of_nonneg_right _ (le_of_lt (f32_quantum_pos y))
    exact_mod_cast round_half_even_mono
      (div_le_div_of_nonneg_right h (le_of_lt (f32_quantum_pos y)))

theorem f32_nearest_mono {x y : ℚ} (h : x ≤ y) : f32_nearest x ≤ f32_nearest y := by
  unfold f32_nearest
  by_cases hx : 0 ≤ x
  · rw [if_pos hx, if_pos (le_trans hx h)]
    exact f32_nearest_mag_mono hx h
  · rw [if_neg hx]
    have hx2 : 0 ≤ -x := by linarith
    by_cases hy : 0 ≤ y
    · rw [if_pos hy]
      have := f32_nearest_mag_nonneg hx2
      have := f32_nearest_mag_nonneg hy
      linarith
    · rw [if_neg hy]
      have := f32_nearest_mag_mono (x := -y) (y := -x) (by linarith) (by linarith)
      linarith


theorem f32_nearest_neg (x : ℚ) : f32_nearest (-x) = -f32_nearest x := by
  unfold f32_nearest
  rcases lt_trichotomy x 0 with h | h | h
  · rw [if_pos (by linarith), if_neg (by linarith)]
    simp
  · subst h
    simp [f32_nearest_mag, round_half_even]
  · rw [if_neg (by linarith), if_pos (by linarith)]
    simp

theorem f32_nearest_zero : f32_nearest 0 = 0 := by
  simp [f32_nearest, f32_nearest_mag, round_half_even]

theorem f32_nearest_nonneg {x : ℚ} (h : 0 ≤ x) : 0 ≤ f32_nearest x := by
  have := f32_nearest_mono h
  rwa [f32_nearest_zero] at this

theorem f32_nearest_nonpos {x : ℚ} (h : x ≤ 0) : f32_nearest x ≤ 0 := by
  have := f32_nearest_mono h
  rwa [f32_nearest_zero] at this

/-- A value `x ≥ 0` in the binade of exponent `e` rounds to `n * 2^(e-23)` when
`n` is the integer nearest to `x / 2^(e-23)`. -/
theorem f32_nearest_eq_of_binade (x : ℚ) (e n : Int) (hx : 0 ≤ x)
    (he : f32_exponent x = e)
    (hn : round_half_even (x / (2 : ℚ) ^ (e - 23)) = n) :
    f32_nearest x = (n : ℚ) * (2 : ℚ) ^ (e - 23) := by
  unfold f32_nearest
  rw [if_pos hx]
  unfold f32_nearest_mag f32_quantum
  rw [he, hn]

theorem f32_exponent_le_of_abs_lt (x : ℚ) (k : Int) (hk : -126 ≤ k)
    (h : |x| < (2 : ℚ) ^ (k + 1)) : f32_exponent x ≤ k := by
  by_contra hcon
  have hgt : k < f32_exponent x := not_le.mp hcon
  have h1 := zpow_exponent_le_abs x (by omega)
  have h2 : (2 : ℚ) ^ (k + 1) ≤ (2 : ℚ) ^ f32_exponent x :=
    zpow_le_zpow_right₀ (by norm_num) (by omega)
  linarith

/-- Every `m * 2^k` with `|m| < 2^24` and `k ≥ -149` is a fixed point of the
rounding: these are the binary32 values. -/
theorem f32_nearest_scaled_int (m k : Int) (hk : -149 ≤ k) (hm : |m| < 16777216) :
    f32_nearest ((m : ℚ) * (2 : ℚ) ^ k) = (m : ℚ) * (2 : ℚ) ^ k := by
  have key : ∀ m : Int, 0 ≤ m → m < 16777216 →
      f32_nearest ((m : ℚ) * (2 : ℚ) ^ k) = (m : ℚ) * (2 : ℚ) ^ k := by
    intro m hm0 hm1
    have hpk : (0 : ℚ) < (2 : ℚ) ^ k := zpow_pos (by norm_num) _
    have hx0 : 0 ≤ (m : ℚ) * (2 : ℚ) ^ k :=
      mul_nonneg (by exact_mod_cast hm0) (le_of_lt hpk)
    have habs : |(m : ℚ) * (2 : ℚ) ^ k| < (2 : ℚ) ^ (k + 23 + 1) := by
      rw [abs_of_nonneg hx0]
      have h2 : (2 : ℚ) ^ (k + 23 + 1) = 16777216 * (2 : ℚ) ^ k := by
        rw [show (16777216 : ℚ) = (2 : ℚ) ^ (24 : Int) by norm_num, ← zpow_add₀ (by norm_num)]
        congr 1; ring
      rw [h2]
      have : (m : ℚ) < 16777216 := by exact_mod_cast hm1
      exact mul_lt_mul_of_pos_right this hpk
    have hE := f32_exponent_le_of_abs_lt _ (k + 23) (by omega) habs
    have hE2 := f32_exponent_ge ((m : ℚ) * (2 : ℚ) ^ k)
    obtain ⟨j, hj⟩ : ∃ j : ℕ, (j : Int) = k - (f32_exponent ((m : ℚ) * (2 : ℚ) ^ k) - 23) :=
      ⟨(k - (f32_exponent ((m : ℚ) * (2 : ℚ) ^ k) - 23)).toNat, by
        rw [Int.toNat_of_nonneg]; omega⟩
    have hdiv : (m : ℚ) * (2 : ℚ) ^ k / f32_quantum ((m : ℚ) * (2 : ℚ) ^ k)
        = ((m * (2 : Int) ^ j : Int) : ℚ) := by
      unfold f32_quantum
      rw [mul_div_assoc, ← zpow_sub₀ (by norm_num), ← hj]
      push_cast
      rw [zpow_natCast]
    unfold f32_nearest
    rw [if_pos hx0]
    unfold f32_nearest_mag
    rw [hdiv, round_half_even_intCast, ← hdiv]
    exact div_mul_cancel₀ _ (ne_of_gt (f32_quantum_pos _))
  rcases le_total 0 m with h | h
  · exact key m h (by rw [abs_of_nonneg h] at hm; exact hm)
  · have h1 := key (-m) (by omega) (by rw [abs_of_nonpos h] at hm; exact hm)
    have h2 : ((-m : Int) : ℚ) * (2 : ℚ) ^ k = -((m : ℚ) * (2 : ℚ) ^ k) := by
      push_cast; ring
    rw [h2, f32_nearest_neg] at h1
    linarith

theorem f32_nearest_intCast (n : Int) (h : |n| < 16777216) :
    f32_nearest (n : ℚ) = n := by
  have := f32_nearest_scaled_int n 0 (by norm_num) h
  simpa using this

theorem f32_nearest_abs_sub_le (x : ℚ) : |f32_nearest x - x| ≤ f32_quantum x / 2 := by
  have key : ∀ x : ℚ, 0 ≤ x → |f32_nearest_mag x - x| ≤ f32_quantum x / 2 := by
    intro x _
    have hq := f32_quantum_pos x
    have h := round_half_even_abs_sub_le (x / f32_quantum x)
    have e1 : f32_nearest_mag x - x =
        ((round_half_even (x / f32_quantum x) : ℚ) - x / f32_quantum x) * f32_quantum x := by
      unfold f32_nearest_mag
      field_simp
    rw [e1, abs_mul, abs_of_pos hq]
    calc |(round_half_even (x / f32_quantum x) : ℚ) - x / f32_quantum x| * f32_quantum x
        ≤ 1 / 2 * f32_quantum x := mul_le_mul_of_nonneg_right h (le_of_lt hq)
      _ = f32_quantum x / 2 := by ring
  unfold f32_nearest
  by_cases hx : 0 ≤ x
  · rw [if_pos hx]; exact key x hx
  · rw [if_neg hx]
    have h := key (-x) (by linarith)
    have hq : f32_quantum (-x) = f32_quantum x := by
      unfold f32_quantum; rw [f32_exponent_neg]
    rw [hq] at h
    have e : -f32_nearest_mag (-x) - x = -(f32_nearest_mag (-x) - -x) := by ring
    rw [e, abs_neg]
    exact h

theorem round_half_even_tie_odd (n : Int) (h : n % 2 = 1) :
    round_half_even ((n : ℚ) + 1 / 2) = n + 1 := by
  have hf : ⌊(n : ℚ) + 1 / 2⌋ = n := by
    rw [Int.floor_eq_iff]; constructor <;> linarith
  unfold round_half_even
  rw [hf]
  have h1 : ¬ ((n : ℚ) + 1 / 2 - n < 1 / 2) := by linarith
  have h2 : ¬ ((1 : ℚ) / 2 < (n : ℚ) + 1 / 2 - n) := by linarith
  rw [if_neg h1, if_neg h2, if_neg (by omega)]

theorem f32_quantum_le (x : ℚ) (h : (2 : ℚ) ^ (-126 : Int) ≤ |x|) :
    f32_quantum x ≤ |x| * (2 : ℚ) ^ (-23 : Int) := by
  have hE : (2 : ℚ) ^ f32_exponent x ≤ |x| := by
    rcases eq_or_lt_of_le (f32_exponent_ge x) with h1 | h1
    · rw [← h1]; exact h
    · exact zpow_exponent_le_abs x h1
  unfold f32_quantum
  rw [sub_eq_add_neg, zpow_add₀ (by norm_num)]
  exact mul_le_mul_of_nonneg_right hE (le_of_lt (zpow_pos (by norm_num) _))

theorem f32_nearest_rel_error (x : ℚ) (h : (2 : ℚ) ^ (-126 : Int) ≤ |x|) :
    |f32_nearest x - x| ≤ |x| / 16777216 := by
  have h1 := f32_nearest_abs_sub_le x
  have h2 := f32_quantum_le x h
  have h3 : (2 : ℚ) ^ (-23 : Int) = 1 / 8388608 := by norm_num
  rw [h3] at h2
  linarith

theorem f32_nearest_max : f32_nearest f32_max = f32_max := by
  have h := f32_nearest_scaled_int 16777215 104 (by norm_num) (by norm_num)
  have e : ((16777215 : Int) : ℚ) * (2 : ℚ) ^ (104 : Int) = f32_max := by
    norm_num [f32_max]
  rwa [e] at h

theorem f32_nearest_abs_le_max (x : ℚ) (h : |x| ≤ f32_max) : |f32_nearest x| ≤ f32_max := by
  rw [abs_le] at h ⊢
  constructor
  · have := f32_nearest_mono h.1
    rwa [f32_nearest_neg, f32_nearest_max] at this
  · have := f32_nearest_mono h.2
    rwa [f32_nearest_max] at this

theorem f32_round_of_nearest_lt (x : ℚ) (h : |f32_nearest x| < (2 : ℚ) ^ 128) :
    f32.round x = f32.fin (f32_nearest x) := by
  rw [abs_lt] at h
  unfold f32.round
  rw [if_neg (not_le.mpr h.2), if_neg (not_le.mpr h.1)]

theorem f32_round_of_abs_le_max (x : ℚ) (h : |x| ≤ f32_max) :
    f32.round x = f32.fin (f32_nearest x) := by
  apply f32_round_of_nearest_lt
  refine lt_of_le_of_lt (f32_nearest_abs_le_max x h) ?_
  norm_num [f32_max]

theorem f32_round_scaled_int (m k : Int) (hk : -149 ≤ k) (hm : |m| < 16777216)
    (hx : |(m : ℚ) * (2 : ℚ) ^ k| ≤ f32_max) :
    f32.round ((m : ℚ) * (2 : ℚ) ^ k) = f32.fin ((m : ℚ) * (2 : ℚ) ^ k) := by
  rw [f32_round_of_abs_le_max _ hx, f32_nearest_scaled_int m k hk hm]

theorem f32_round_intCast (n : Int) (h : |n| < 16777216) :
    f32.round (n : ℚ) = f32.fin n := by
  have hx : |(n : ℚ)| ≤ f32_max := by
    have : |(n : ℚ)| < 16777216 := by exact_mod_cast h
    refine le_trans (le_of_lt this) ?_
    norm_num [f32_max]
  rw [f32_round_of_abs_le_max _ hx, f32_nearest_intCast n h]

theorem f32_round_zero : f32.round 0 = f32.fin 0 := by
  have := f32_round_intCast 0 (by norm_num)
  simpa using this

theorem f32_round_one : f32.round 1 = f32.fin 1 := by
  have := f32_round_intCast 1 (by norm_num)
  simpa using this

theorem f32_nearest_one : f32_nearest 1 = 1 := by
  have := f32_nearest_intCast 1 (by norm_num)
  simpa using this

theorem f32_round_ne_nan (x : ℚ) : f32.round x ≠ f32.nan := by
  unfold f32.round
  split_ifs <;> simp

theorem f32_round_cases (x : ℚ) :
    f32.round x = f32.fin (f32_nearest x) ∨ f32.round x = f32.inf (decide (x < 0)) := by
  unfold f32.round
  split_ifs with h1 h2
  · right
    have hx : ¬ x < 0 := by
      intro hneg
      have := f32_nearest_nonpos (le_of_lt hneg)
      have hp : (0 : ℚ) < (2 : ℚ) ^ 128 := by norm_num
      linarith
    simp [hx]
  · right
    have hx : x < 0 := by
      by_contra hcon
      have := f32_nearest_nonneg (not_lt.mp hcon)
      have hp : (0 : ℚ) < (2 : ℚ) ^ 128 := by norm_num
      linarith
    simp [hx]
  · left; rfl

theorem f32_round_is_nonneg {x : ℚ} (h : 0 ≤ x) : (f32.round x).is_nonneg := by
  rcases f32_round_cases x with h1 | h1
  · right
    exact ⟨f32_nearest x, h1, f32_nearest_nonneg h⟩
  · left
    rw [h1]
    simp [not_lt.mpr h]

theorem f32_nearest_unit {x : ℚ} (h0 : 0 ≤ x) (h1 : x ≤ 1) :
    0 ≤ f32_nearest x ∧ f32_nearest x ≤ 1 := by
  constructor
  · exact f32_nearest_nonneg h0
  · have := f32_nearest_mono h1
    rwa [f32_nearest_one] at this

theorem f32_round_unit {x : ℚ} (h0 : 0 ≤ x) (h1 : x ≤ 1) :
    f32.round x = f32.fin (f32_nearest x) := by
  apply f32_round_of_abs_le_max
  rw [abs_of_nonneg h0]
  exact le_trans h1 (by norm_num [f32_max])

theorem f32_of_int_small (n : Int) (h : |n| < 16777216) : f32.of_int n = f32.fin n :=
  f32_round_intCast n h

/-! ### Binary32 operations -/

theorem f32_in_unit_zero : f32.zero.in_unit := ⟨0, rfl, le_refl 0, zero_le_one⟩

theorem f32_in_unit_one : f32.one.in_unit := ⟨1, rfl, zero_le_one, le_refl 1⟩

theorem f32_in_unit_ne_nan {x : f32} (h : x.in_unit) : x ≠ f32.nan := by
  obtain ⟨q, hq, _, _⟩ := h
  rw [hq]; simp

theorem f32_is_nonneg_zero : f32.zero.is_nonneg := Or.inr ⟨0, rfl, le_refl 0⟩

theorem f32_is_nonneg_ne_nan {x : f32} (h : x.is_nonneg) : x ≠ f32.nan := by
  rcases h with h | ⟨q, h, _⟩ <;> rw [h] <;> simp

theorem f32_add_is_nonneg {x y : f32} (hx : x.is_nonneg) (hy : y.is_nonneg) :
    (f32.add x y).is_nonneg := by
  rcases hx with hx | ⟨a, hx, ha⟩ <;> rcases hy with hy | ⟨b, hy, hb⟩ <;> rw [hx, hy]
  · left; simp [f32.add]
  · left; simp [f32.add]
  · left; simp [f32.add]
  · simp only [f32.add]
    exact f32_round_is_nonneg (add_nonneg ha hb)

theorem f32_div_is_nonneg {x : f32} {a : ℚ} (hx : x.is_nonneg) (ha : 0 < a) :
    (f32.div x (f32.fin a)).is_nonneg := by
  rcases hx with hx | ⟨t, hx, ht⟩ <;> rw [hx]
  · left
    simp [f32.div, not_lt.mpr (le_of_lt ha)]
  · simp only [f32.div, if_neg (ne_of_gt ha)]
    exact f32_round_is_nonneg (div_nonneg ht (le_of_lt ha))

theorem f32_gt_zero_fin (a : ℚ) : f32.gt (f32.fin a) f32.zero = decide (0 < a) := rfl

theorem f32_ge_one_fin (a : ℚ) : f32.ge (f32.fin a) f32.one = decide (1 ≤ a) := rfl

theorem f32_lt_zero_fin (a : ℚ) : f32.lt (f32.fin a) f32.zero = decide (a < 0) := rfl

theorem f32_gt_one_fin (a : ℚ) : f32.gt (f32.fin a) f32.one = decide (1 < a) := rfl

/-- A non-negative float that is not `>= 1.0f` is a finite value in `[0, 1)`. -/
theorem f32_is_nonneg_not_ge_one {x : f32} (hx : x.is_nonneg)
    (h : f32.ge x f32.one = false) : ∃ p : ℚ, x = f32.fin p ∧ 0 ≤ p ∧ p < 1 := by
  rcases hx with hx | ⟨p, hx, hp⟩
  · rw [hx] at h
    simp [f32.ge, f32.le, f32.one] at h
  · rw [hx, f32_ge_one_fin] at h
    exact ⟨p, hx, hp, by simpa using h⟩

theorem f32_sub_fin_ne_nan (a : ℚ) {x : f32} (hx : x ≠ f32.nan) :
    f32.sub (f32.fin a) x ≠ f32.nan := by
  cases x with
  | fin b => simp only [f32.sub, f32.neg, f32.add]; exact f32_round_ne_nan _
  | inf n => simp [f32.sub, f32.neg, f32.add]
  | nan => exact absurd rfl hx

theorem f32_sub_one_unit {p : ℚ} (h0 : 0 ≤ p) (h1 : p ≤ 1) :
    f32.sub f32.one (f32.fin p) = f32.fin (f32_nearest (1 - p)) ∧
    0 ≤ f32_nearest (1 - p) ∧ f32_nearest (1 - p) ≤ 1 := by
  have hr := f32_round_unit (x := 1 - p) (by linarith) (by linarith)
  have hu := f32_nearest_unit (x := 1 - p) (by linarith) (by linarith)
  refine ⟨?_, hu⟩
  simp only [f32.sub, f32.one, f32.neg, f32.add]
  rw [← sub_eq_add_neg, hr]

theorem f32_mul_unit {p t : ℚ} (hp0 : 0 ≤ p) (hp1 : p ≤ 1) (ht0 : 0 ≤ t) (ht1 : t ≤ 1) :
    f32.mul (f32.fin p) (f32.fin t) = f32.fin (f32_nearest (p * t)) ∧
    0 ≤ f32_nearest (p * t) ∧ f32_nearest (p * t) ≤ 1 := by
  have h0 : 0 ≤ p * t := mul_nonneg hp0 ht0
  have h1 : p * t ≤ 1 := by
    have := mul_le_mul hp1 ht1 ht0 (by norm_num : (0 : ℚ) ≤ 1)
    linarith
  exact ⟨by simp only [f32.mul]; exact f32_round_unit h0 h1, f32_nearest_unit h0 h1⟩

/-! ### Envelope: the clamp -/

theorem adsr_update_clamp_of_in_unit (s : sound_system_t) (h : s.envelope_level.in_unit) :
    adsr_update_clamp s = s := by
  obtain ⟨q, hq, h0, h1⟩ := h
  unfold adsr_update_clamp
  simp [hq, f32_lt_zero_fin, f32_gt_one_fin, not_lt.mpr h0, not_lt.mpr h1]

theorem adsr_update_clamp_in_unit (s : sound_system_t) (h : s.envelope_level ≠ f32.nan) :
    (adsr_update_clamp s).envelope_level.in_unit := by
  unfold adsr_update_clamp
  cases hl : s.envelope_level with
  | nan => exact absurd hl h
  | inf n =>
    cases n
    · simp [hl, f32.lt, f32.gt, f32.zero, f32.one]
      exact f32_in_unit_one
    · simp [hl, f32.lt, f32.gt, f32.zero, f32.one]
      exact f32_in_unit_zero
  | fin q =>
    by_cases h0 : q < 0
    · simp [hl, f32_lt_zero_fin, h0, f32.gt, f32.lt, f32.zero, f32.one]
      exact f32_in_unit_zero
    · by_cases h1 : 1 < q
      · simp [f32_lt_zero_fin, h0, hl, f32_gt_one_fin, h1]
        exact f32_in_unit_one
      · simp [f32_lt_zero_fin, h0, hl, f32_gt_one_fin, h1]
        exact ⟨q, rfl, not_lt.mp h0, not_lt.mp h1⟩

theorem adsr_update_clamp_frame (s : sound_system_t) :
    adsr_update_clamp s =
      { s with envelope_level := (adsr_update_clamp s).envelope_level } := by
  unfold adsr_update_clamp
  simp only []
  split <;> split <;> rfl

theorem adsr_update_clamp_state (s : sound_system_t) :
    (adsr_update_clamp s).adsr_state = s.adsr_state ∧
    (adsr_update_clamp s).adsr_timer = s.adsr_timer := by
  rw [adsr_update_clamp_frame]
  exact ⟨rfl, rfl⟩

/-! ### Envelope: one update, stage by stage -/

theorem adsr_update_idle (s : sound_system_t) (dt : f32) (h : s.adsr_state = ADSR_IDLE) :
    adsr_update s dt =
      { s with adsr_timer := f32.add s.adsr_timer dt, envelope_level := f32.zero } := by
  unfold adsr_update
  rw [adsr_update_clamp_of_in_unit] <;> simp [adsr_update_switch, h, f32_in_unit_zero]

theorem adsr_update_sustain (s : sound_system_t) (dt : f32) (h : s.adsr_state = ADSR_SUSTAIN) :
    adsr_update s dt =
      adsr_update_clamp
        { s with adsr_timer := f32.add s.adsr_timer dt, envelope_level := s.sustain_level } := by
  unfold adsr_update
  simp [adsr_update_switch, h]

theorem adsr_update_attack_instant (s : sound_system_t) (dt : f32)
    (h : s.adsr_state = ADSR_ATTACK) (ha : f32.gt s.attack_time f32.zero = false) :
    adsr_update s dt =
      { s with envelope_level := f32.one, adsr_state := ADSR_DECAY, adsr_timer := f32.zero } := by
  unfold adsr_update
  rw [adsr_update_clamp_of_in_unit] <;> simp [adsr_update_switch, h, ha, f32_in_unit_one]

theorem adsr_update_attack_done (s : sound_system_t) (dt : f32)
    (h : s.adsr_state = ADSR_ATTACK) (ha : f32.gt s.attack_time f32.zero = true)
    (hp : f32.ge (f32.div (f32.add s.adsr_timer dt) s.attack_time) f32.one = true) :
    adsr_update s dt =
      { s with envelope_level := f32.one, adsr_state := ADSR_DECAY, adsr_timer := f32.zero } := by
  unfold adsr_update
  rw [adsr_update_clamp_of_in_unit] <;> simp [adsr_update_switch, h, ha, hp, f32_in_unit_one]

theorem adsr_update_attack_ramp (s : sound_system_t) (dt : f32)
    (h : s.adsr_state = ADSR_ATTACK) (ha : f32.gt s.attack_time f32.zero = true)
    (hp : f32.ge (f32.div (f32.add s.adsr_timer dt) s.attack_time) f32.one = false) :
    adsr_update s dt =
      adsr_update_clamp
        { s with adsr_timer := f32.add s.adsr_timer dt,
                 envelope_level := f32.div (f32.add s.adsr_timer dt) s.attack_time } := by
  unfold adsr_update
  simp [adsr_update_switch, h, ha, hp]

theorem adsr_update_decay_instant (s : sound_system_t) (dt : f32)
    (h : s.adsr_state = ADSR_DECAY) (hd : f32.gt s.decay_time f32.zero = false) :
    adsr_update s dt =
      adsr_update_clamp
        { s with envelope_level := s.sustain_level, adsr_state := ADSR_SUSTAIN,
                 adsr_timer := f32.zero } := by
  unfold adsr_update
  simp [adsr_update_switch, h, hd]

theorem adsr_update_decay_done (s : sound_system_t) (dt : f32)
    (h : s.adsr_state = ADSR_DECAY) (hd : f32.gt s.decay_time f32.zero = true)
    (hp : f32.ge (f32.div (f32.add s.adsr_timer dt) s.decay_time) f32.one = true) :
    adsr_update s dt =
      adsr_update_clamp
        { s with envelope_level := s.sustain_level, adsr_state := ADSR_SUSTAIN,
                 adsr_timer := f32.zero } := by
  unfold adsr_update
  simp [adsr_update_switch, h, hd, hp]

theorem adsr_update_decay_ramp (s : sound_system_t) (dt : f32)
    (h : s.adsr_state = ADSR_DECAY) (hd : f32.gt s.decay_time f32.zero = true)
    (hp : f32.ge (f32.div (f32.add s.adsr_timer dt) s.decay_time) f32.one = false) :
    adsr_update s dt =
      adsr_update_clamp
        { s with adsr_timer := f32.add s.adsr_timer dt,
                 envelope_level :=
                   f32.sub f32.one
                     (f32.mul (f32.div (f32.add s.adsr_timer dt) s.decay_time)
                       (f32.sub f32.one s.sustain_level)) } := by
  unfold adsr_update
  simp [adsr_update_switch, h, hd, hp]

theorem adsr_update_release_instant (s : sound_system_t) (dt : f32)
    (h : s.adsr_state = ADSR_RELEASE) (hr : f32.gt s.release_time f32.zero = false) :
    adsr_update s dt =
      { s with envelope_level := f32.zero, adsr_state := ADSR_IDLE, adsr_timer := f32.zero } := by
  unfold adsr_update
  rw [adsr_update_clamp_of_in_unit] <;> simp [adsr_update_switch, h, hr, f32_in_unit_zero]

theorem adsr_update_release_done (s : sound_system_t) (dt : f32)
    (h : s.adsr_state = ADSR_RELEASE) (hr : f32.gt s.release_time f32.zero = true)
    (hp : f32.ge (f32.div (f32.add s.adsr_timer dt) s.release_time) f32.one = true) :
    adsr_update s dt =
      { s with envelope_level := f32.zero, adsr_state := ADSR_IDLE, adsr_timer := f32.zero } := by
  unfold adsr_update
  rw [adsr_update_clamp_of_in_unit] <;> simp [adsr_update_switch, h, hr, hp, f32_in_unit_zero]

theorem adsr_update_release_ramp (s : sound_system_t) (dt : f32)
    (h : s.adsr_state = ADSR_RELEASE) (hr : f32.gt s.release_time f32.zero = true)
    (hp : f32.ge (f32.div (f32.add s.adsr_timer dt) s.release_time) f32.one = false) :
    adsr_update s dt =
      adsr_update_clamp
        { s with adsr_timer := f32.add s.adsr_timer dt,
                 envelope_level :=
                   f32.mul s.sustain_level
                     (f32.sub f32.one
                       (f32.div (f32.add s.adsr_timer dt) s.release_time)) } := by
  unfold adsr_update
  simp [adsr_update_switch, h, hr, hp]

theorem adsr_update_level_irrelevant (s : sound_system_t) (l dt : f32) :
    adsr_update { s with envelope_level := l } dt = adsr_update s dt := by
  unfold adsr_update adsr_update_switch
  cases h : s.adsr_state <;> simp [h]

/-! ### Envelope: the level stays in the unit interval -/

theorem f32_nearest_max_succ : f32_nearest (f32_max + 1) = f32_max := by
  have hx : (0 : ℚ) ≤ f32_max + 1 := by norm_num [f32_max]
  have he : f32_exponent (f32_max + 1) = 127 := by
    apply f32_exponent_eq _ 127 (by norm_num)
    · rw [abs_of_nonneg hx]; norm_num [f32_max]
    · rw [abs_of_nonneg hx]; norm_num [f32_max]
  have hn : round_half_even ((f32_max + 1) / (2 : ℚ) ^ ((127 : Int) - 23)) = 16777215 := by
    apply round_half_even_eq_of_lt <;> norm_num [f32_max]
  rw [f32_nearest_eq_of_binade _ 127 16777215 hx he hn]
  norm_num [f32_max]

theorem f32_sub_one_finite {x : f32} (h : x.is_finite) :
    ∃ t : ℚ, f32.sub f32.one x = f32.fin t := by
  obtain ⟨q, hq, hb⟩ := h
  rw [hq]
  simp only [f32.sub, f32.one, f32.neg, f32.add]
  refine ⟨f32_nearest (1 + -q), f32_round_of_nearest_lt _ ?_⟩
  rw [abs_le] at hb
  have h1 : f32_nearest (1 + -q) ≤ f32_max := by
    have := f32_nearest_mono (show 1 + -q ≤ f32_max + 1 by linarith)
    rwa [f32_nearest_max_succ] at this
  have h2 : -f32_max ≤ f32_nearest (1 + -q) := by
    have := f32_nearest_mono (show -f32_max ≤ 1 + -q by linarith)
    rwa [f32_nearest_neg, f32_nearest_max] at this
  rw [abs_lt]
  constructor
  · exact lt_of_lt_of_le (by norm_num [f32_max]) h2
  · exact lt_of_le_of_lt h1 (by norm_num [f32_max])

theorem f32_is_finite_pos {x : f32} (h : x.is_finite) (hg : f32.gt x f32.zero = true) :
    ∃ a : ℚ, x = f32.fin a ∧ 0 < a := by
  obtain ⟨a, ha, _⟩ := h
  rw [ha, f32_gt_zero_fin] at hg
  exact ⟨a, ha, by simpa using hg⟩

theorem f32_is_finite_ne_nan {x : f32} (h : x.is_finite) : x ≠ f32.nan := by
  obtain ⟨a, ha, _⟩ := h
  rw [ha]; simp

theorem adsr_update_preserves (s : sound_system_t) (dt : f32)
    (ht : s.adsr_timer.is_nonneg) (hp : s.finite_params) (hdt : dt.is_nonneg) :
    (adsr_update s dt).envelope_level.in_unit ∧ (adsr_update s dt).adsr_timer.is_nonneg ∧
    (adsr_update s dt).finite_params := by
  have hT : (f32.add s.adsr_timer dt).is_nonneg := f32_add_is_nonneg ht hdt
  obtain ⟨hpa, hpd, hps, hpr⟩ := hp
  cases h : s.adsr_state with
  | ADSR_IDLE =>
    rw [adsr_update_idle s dt h]
    exact ⟨f32_in_unit_zero, hT, hpa, hpd, hps, hpr⟩
  | ADSR_SUSTAIN =>
    rw [adsr_update_sustain s dt h]
    refine ⟨adsr_update_clamp_in_unit _ (f32_is_finite_ne_nan hps), ?_, ?_⟩
    · rw [(adsr_update_clamp_state _).2]; exact hT
    · rw [adsr_update_clamp_frame]; exact ⟨hpa, hpd, hps, hpr⟩
  | ADSR_ATTACK =>
    cases ha : f32.gt s.attack_time f32.zero with
    | false =>
      rw [adsr_update_attack_instant s dt h ha]
      exact ⟨f32_in_unit_one, f32_is_nonneg_zero, hpa, hpd, hps, hpr⟩
    | true =>
      obtain ⟨a, hae, ha0⟩ := f32_is_finite_pos hpa ha
      have hP : (f32.div (f32.add s.adsr_timer dt) s.attack_time).is_nonneg := by
        rw [hae]; exact f32_div_is_nonneg hT ha0
      cases hge : f32.ge (f32.div (f32.add s.adsr_timer dt) s.attack_time) f32.one with
      | true =>
        rw [adsr_update_attack_done s dt h ha hge]
        exact ⟨f32_in_unit_one, f32_is_nonneg_zero, hpa, hpd, hps, hpr⟩
      | false =>
        rw [adsr_update_attack_ramp s dt h ha hge]
        refine ⟨adsr_update_clamp_in_unit _ (f32_is_nonneg_ne_nan hP), ?_, ?_⟩
        · rw [(adsr_update_clamp_state _).2]; exact hT
        · rw [adsr_update_clamp_frame]; exact ⟨hpa, hpd, hps, hpr⟩
  | ADSR_DECAY =>
    cases hd : f32.gt s.decay_time f32.zero with
    | false =>
      rw [adsr_update_decay_instant s dt h hd]
      refine ⟨adsr_update_clamp_in_unit _ (f32_is_finite_ne_nan hps), ?_, ?_⟩
      · rw [(adsr_update_clamp_state _).2]; exact f32_is_nonneg_zero
      · rw [adsr_update_clamp_frame]; exact ⟨hpa, hpd, hps, hpr⟩
    | true =>
      obtain ⟨d, hde, hd0⟩ := f32_is_finite_pos hpd hd
      have hP : (f32.div (f32.add s.adsr_timer dt) s.decay_time).is_nonneg := by
        rw [hde]; exact f32_div_is_nonneg hT hd0
      cases hge : f32.ge (f32.div (f32.add s.adsr_timer dt) s.decay_time) f32.one with
      | true =>
        rw [adsr_update_decay_done s dt h hd hge]
        refine ⟨adsr_update_clamp_in_unit _ (f32_is_finite_ne_nan hps), ?_, ?_⟩
        · rw [(adsr_update_clamp_state _).2]; exact f32_is_nonneg_zero
        · rw [adsr_update_clamp_frame]; exact ⟨hpa, hpd, hps, hpr⟩
      | false =>
        rw [adsr_update_decay_ramp s dt h hd hge]
        obtain ⟨p, hpe, _, _⟩ := f32_is_nonneg_not_ge_one hP hge
        obtain ⟨t, hte⟩ := f32_sub_one_finite hps
        have hne : f32.sub f32.one
            (f32.mul (f32.div (f32.add s.adsr_timer dt) s.decay_time)
              (f32.sub f32.one s.sustain_level)) ≠ f32.nan := by
          rw [hpe, hte]
          apply f32_sub_fin_ne_nan
          simp only [f32.mul]
          exact f32_round_ne_nan _
        refine ⟨adsr_update_clamp_in_unit _ hne, ?_, ?_⟩
        · rw [(adsr_update_clamp_state _).2]; exact hT
        · rw [adsr_update_clamp_frame]; exact ⟨hpa, hpd, hps, hpr⟩
  | ADSR_RELEASE =>
    cases hr : f32.gt s.release_time f32.zero with
    | false =>
      rw [adsr_update_release_instant s dt h hr]
      exact ⟨f32_in_unit_zero, f32_is_nonneg_zero, hpa, hpd, hps, hpr⟩
    | true =>
      obtain ⟨r, hre, hr0⟩ := f32_is_finite_pos hpr hr
      have hP : (f32.div (f32.add s.adsr_timer dt) s.release_time).is_nonneg := by
        rw [hre]; exact f32_div_is_nonneg hT hr0
      cases hge : f32.ge (f32.div (f32.add s.adsr_timer dt) s.release_time) f32.one with
      | true =>
        rw [adsr_update_release_done s dt h hr hge]
        exact ⟨f32_in_unit_zero, f32_is_nonneg_zero, hpa, hpd, hps, hpr⟩
      | false =>
        rw [adsr_update_release_ramp s dt h hr hge]
        obtain ⟨p, hpe, hp0, hp1⟩ := f32_is_nonneg_not_ge_one hP hge
        obtain ⟨sl, hsl, _⟩ := hps
        have hne : f32.mul s.sustain_level
            (f32.sub f32.one (f32.div (f32.add s.adsr_timer dt) s.release_time))
              ≠ f32.nan := by
          rw [hpe, (f32_sub_one_unit hp0 (le_of_lt hp1)).1, hsl]
          simp only [f32.mul]
          exact f32_round_ne_nan _
        refine ⟨adsr_update_clamp_in_unit _ hne, ?_, ?_⟩
        · rw [(adsr_update_clamp_state _).2]; exact hT
        · rw [adsr_update_clamp_frame]; exact ⟨hpa, hpd, ⟨sl, hsl, by assumption⟩, hpr⟩

theorem adsr_note_on_level (s : sound_system_t) :
    (adsr_note_on s).envelope_level = s.envelope_level := rfl

theorem adsr_note_off_level (s : sound_system_t) :
    (adsr_note_off s).envelope_level = s.envelope_level := by
  unfold adsr_note_off
  split <;> rfl

theorem adsr_call_run_preserves (c : adsr_call) (s : sound_system_t)
    (hl : s.envelope_level.in_unit) (ht : s.adsr_timer.is_nonneg) (hp : s.finite_params)
    (hc : c.nonneg_step) :
    (c.run s).envelope_level.in_unit ∧ (c.run s).adsr_timer.is_nonneg ∧
    (c.run s).finite_params := by
  cases c with
  | note_on => exact ⟨hl, f32_is_nonneg_zero, hp⟩
  | note_off =>
    simp only [adsr_call.run, adsr_note_off]
    split
    · exact ⟨hl, f32_is_nonneg_zero, hp⟩
    · exact ⟨hl, ht, hp⟩
  | update dt => exact adsr_update_preserves s dt ht hp hc

theorem adsr_trace_level_in_unit (calls : List adsr_call) :
    ∀ s0 : sound_system_t, s0.envelope_level.in_unit → s0.adsr_timer.is_nonneg →
      s0.finite_params → (∀ c ∈ calls, c.nonneg_step) →
      ∀ s ∈ adsr_trace s0 calls, s.envelope_level.in_unit := by
  induction calls with
  | nil => intro s0 _ _ _ _ s hs; simp [adsr_trace] at hs
  | cons c cs ih =>
    intro s0 hl ht hp hc s hs
    have hstep := adsr_call_run_preserves c s0 hl ht hp (hc c (List.mem_cons_self _ _))
    simp only [adsr_trace, List.mem_cons] at hs
    rcases hs with hs | hs
    · rw [hs]; exact hstep.1
    · exact ih (c.run s0) hstep.1 hstep.2.1 hstep.2.2
        (fun c' hc' => hc c' (List.mem_cons_of_mem _ hc')) s hs

theorem adsr_nan_run (s0 : sound_system_t)
    (h_attack : s0.attack_time = f32.fin 0) (h_decay : s0.decay_time = f32.fin 1)
    (h_sustain : s0.sustain_level = f32.fin 1) :
    (adsr_run s0
      [adsr_call.note_on, adsr_call.update (f32.fin 0),
       adsr_call.update (f32.fin (-(3 * 2 ^ 126))),
       adsr_call.update (f32.fin (-(3 * 2 ^ 126)))]).envelope_level = f32.nan := by
  have rX : f32.round (-(3 * 2 ^ 126)) = f32.fin (-(3 * 2 ^ 126)) := by
    have h := f32_round_scaled_int (-3) 126 (by norm_num) (by norm_num)
      (by norm_num [f32_max])
    have e : ((-3 : Int) : ℚ) * (2 : ℚ) ^ (126 : Int) = -(3 * 2 ^ 126) := by norm_num
    rwa [e] at h
  have r2X : f32.round (-(3 * 2 ^ 126) + -(3 * 2 ^ 126)) = f32.inf true := by
    have h := f32_nearest_scaled_int (-3) 127 (by norm_num) (by norm_num)
    have e : ((-3 : Int) : ℚ) * (2 : ℚ) ^ (127 : Int) = -(3 * 2 ^ 126) + -(3 * 2 ^ 126) := by
      norm_num
    rw [e] at h
    unfold f32.round
    rw [h, if_neg (by norm_num), if_pos (by norm_num)]
  have e1 : adsr_note_on s0 = { s0 with adsr_state := ADSR_ATTACK, adsr_timer := f32.zero } :=
    rfl
  have e2 : adsr_update { s0 with adsr_state := ADSR_ATTACK, adsr_timer := f32.zero }
      (f32.fin 0) =
      { s0 with adsr_state := ADSR_DECAY, adsr_timer := f32.zero, envelope_level := f32.one } := by
    rw [adsr_update_attack_instant _ _ rfl (by simp only [h_attack]; rfl)]
  have hadd : f32.add f32.zero (f32.fin (-(3 * 2 ^ 126))) = f32.fin (-(3 * 2 ^ 126)) := by
    show f32.round (0 + -(3 * 2 ^ 126)) = _
    rw [zero_add]; exact rX
  have hdiv : f32.div (f32.fin (-(3 * 2 ^ 126))) (f32.fin 1) = f32.fin (-(3 * 2 ^ 126)) := by
    simp only [f32.div]
    rw [if_neg (by norm_num), div_one]; exact rX
  have hlev : f32.sub f32.one (f32.mul (f32.fin (-(3 * 2 ^ 126))) (f32.sub f32.one (f32.fin 1)))
      = f32.fin 1 := by
    have h1 : f32.sub f32.one (f32.fin 1) = f32.fin 0 := by
      show f32.round (1 + -1) = _
      rw [add_neg_cancel]; exact f32_round_zero
    rw [h1]
    have h2 : f32.mul (f32.fin (-(3 * 2 ^ 126))) (f32.fin 0) = f32.fin 0 := by
      show f32.round (-(3 * 2 ^ 126) * 0) = _
      rw [mul_zero]; exact f32_round_zero
    rw [h2]
    show f32.round (1 + -0) = _
    rw [neg_zero, add_zero]; exact f32_round_one
  have e3 : adsr_update
      { s0 with adsr_state := ADSR_DECAY, adsr_timer := f32.zero, envelope_level := f32.one }
      (f32.fin (-(3 * 2 ^ 126))) =
      { s0 with adsr_state := ADSR_DECAY, adsr_timer := f32.fin (-(3 * 2 ^ 126)),
                envelope_level := f32.fin 1 } := by
    rw [adsr_update_decay_ramp _ _ rfl (by simp only [h_decay]; rfl)
      (by simp only [h_decay, hadd, hdiv, f32_ge_one_fin]; norm_num)]
    simp only [h_decay, h_sustain, hadd, hdiv, hlev]
    rw [adsr_update_clamp_of_in_unit _ f32_in_unit_one]
  have hadd2 : f32.add (f32.fin (-(3 * 2 ^ 126))) (f32.fin (-(3 * 2 ^ 126))) = f32.inf true :=
    r2X
  have hdiv2 : f32.div (f32.inf true) (f32.fin 1) = f32.inf true := by
    simp [f32.div]
  have hlev2 : f32.sub f32.one (f32.mul (f32.inf true) (f32.sub f32.one (f32.fin 1)))
      = f32.nan := by
    have h1 : f32.sub f32.one (f32.fin 1) = f32.fin 0 := by
      show f32.round (1 + -1) = _
      rw [add_neg_cancel]; exact f32_round_zero
    rw [h1]
    simp [f32.mul, f32.sub, f32.neg, f32.add, f32.one]
  have e4 : (adsr_update
      { s0 with adsr_state := ADSR_DECAY, adsr_timer := f32.fin (-(3 * 2 ^ 126)),
                envelope_level := f32.fin 1 }
      (f32.fin (-(3 * 2 ^ 126)))).envelope_level = f32.nan := by
    rw [adsr_update_decay_ramp _ _ rfl (by simp only [h_decay]; rfl)
      (by simp only [h_decay, hadd2, hdiv2]; rfl)]
    simp only [h_decay, h_sustain, hadd2, hdiv2, hlev2]
    simp [adsr_update_clamp, f32.lt, f32.gt, f32.one, f32.zero]
  simp only [adsr_run, adsr_call.run, e1, e2]
  exact (congrArg sound_system_t.envelope_level (congrArg (fun t => adsr_update t _) e3)).trans e4

/-- C1 counterexample: from the Idle initial state with `attack_time = 0`,
`decay_time = 1` and `sustain_level = 1`, the calls note-on, `update 0` and two
updates with the finite step `-3 * 2^126` drive `adsr_timer` to `-inf`; the
decay ramp then computes `1 - (-inf * 0)`, a NaN, which neither clamp
comparison catches, so the level is not in `[0, 1]`. -/
theorem C1_nan_counterexample :
    ({ g_sound_system with attack_time := f32.fin 0, decay_time := f32.fin 1,
                           sustain_level := f32.fin 1 } : sound_system_t).adsr_state
      = ADSR_IDLE ∧
    ({ g_sound_system with attack_time := f32.fin 0, decay_time := f32.fin 1,
                           sustain_level := f32.fin 1 } : sound_system_t).envelope_level
      = f32.fin 0 ∧
    (adsr_run { g_sound_system with attack_time := f32.fin 0, decay_time := f32.fin 1,
                                    sustain_level := f32.fin 1 }
      [adsr_call.note_on, adsr_call.update (f32.fin 0),
       adsr_call.update (f32.fin (-(3 * 2 ^ 126))),
       adsr_call.update (f32.fin (-(3 * 2 ^ 126)))]).envelope_level = f32.nan ∧
    ¬ (adsr_run { g_sound_system with attack_time := f32.fin 0, decay_time := f32.fin 1,
                                      sustain_level := f32.fin 1 }
      [adsr_call.note_on, adsr_call.update (f32.fin 0),
       adsr_call.update (f32.fin (-(3 * 2 ^ 126))),
       adsr_call.update (f32.fin (-(3 * 2 ^ 126)))]).envelope_level.in_unit := by
  have h := adsr_nan_run
    { g_sound_system with attack_time := f32.fin 0, decay_time := f32.fin 1,
                          sustain_level := f32.fin 1 } rfl rfl rfl
  refine ⟨rfl, rfl, h, ?_⟩
  rw [h]
  exact fun hu => f32_in_unit_ne_nan hu rfl

/-- C1 (amended): starting from a state in stage Idle with envelope level 0
and timer 0, with finite envelope parameters of any sign and size (negative
times and a sustain level outside `[0, 1]` included), after every call of any
finite sequence of `adsr_note_on`, `adsr_note_off` and `adsr_update dt` calls
whose steps `dt` are non-negative (0, arbitrarily large values and `+inf`
included) the envelope level lies in `[0, 1]`, and so does the value of
`adsr_get_level`. -/
theorem C1_envelope_level_in_unit_interval (s0 : sound_system_t)
    (_h_stage : s0.adsr_state = ADSR_IDLE) (h_level : s0.envelope_level = f32.fin 0)
    (h_timer : s0.adsr_timer = f32.fin 0) (h_params : s0.finite_params)
    (calls : List adsr_call) (h_steps : ∀ c ∈ calls, c.nonneg_step) :
    ∀ s ∈ adsr_trace s0 calls,
      s.envelope_level.in_unit ∧ (adsr_get_level s).in_unit := by
  intro s hs
  have h := adsr_trace_level_in_unit calls s0 (by rw [h_level]; exact f32_in_unit_zero)
    (by rw [h_timer]; exact f32_is_nonneg_zero) h_params h_steps s hs
  exact ⟨h, h⟩

/-- C1 witness: the initialiser of `main.c` with four calls, one of them an
update with a large time step. -/
theorem C1_envelope_level_in_unit_interval_witness :
    g_sound_system.adsr_state = ADSR_IDLE ∧ g_sound_system.envelope_level = f32.fin 0 ∧
    g_sound_system.adsr_timer = f32.fin 0 ∧ g_sound_system.finite_params ∧
    (∀ c ∈ [adsr_call.note_on, adsr_call.update (f32.fin 1000), adsr_call.note_off,
            adsr_call.update (f32.fin 0)], c.nonneg_step) ∧
    ∀ s ∈ adsr_trace g_sound_system
        [adsr_call.note_on, adsr_call.update (f32.fin 1000), adsr_call.note_off,
         adsr_call.update (f32.fin 0)],
      s.envelope_level.in_unit ∧ (adsr_get_level s).in_unit :=
  have hp : g_sound_system.finite_params :=
    ⟨⟨_, rfl, abs_le.mpr ⟨by norm_num [f32_max], by norm_num [f32_max]⟩⟩,
     ⟨_, rfl, abs_le.mpr ⟨by norm_num [f32_max], by norm_num [f32_max]⟩⟩,
     ⟨_, rfl, abs_le.mpr ⟨by norm_num [f32_max], by norm_num [f32_max]⟩⟩,
     ⟨_, rfl, abs_le.mpr ⟨by norm_num [f32_max], by norm_num [f32_max]⟩⟩⟩
  have hc : ∀ c ∈ [adsr_call.note_on, adsr_call.update (f32.fin 1000), adsr_call.note_off,
      adsr_call.update (f32.fin 0)], c.nonneg_step := by
    intro c hc
    simp only [List.mem_cons, List.mem_singleton, List.not_mem_nil, or_false] at hc
    rcases hc with h | h | h | h <;> rw [h]
    · trivial
    · exact Or.inr ⟨1000, rfl, by norm_num⟩
    · trivial
    · exact Or.inr ⟨0, rfl, le_refl 0⟩
  ⟨rfl, rfl, rfl, hp, hc, C1_envelope_level_in_unit_interval g_sound_system rfl rfl rfl hp _ hc⟩

/-! ### Envelope: the reference scenario -/

theorem f32_round_half : f32.round (1 / 2) = f32.fin (1 / 2) := by
  have h := f32_round_scaled_int 1 (-1) (by norm_num) (by norm_num)
    (abs_le.mpr ⟨by norm_num [f32_max], by norm_num [f32_max]⟩)
  have e : ((1 : Int) : ℚ) * (2 : ℚ) ^ (-1 : Int) = 1 / 2 := by norm_num
  rwa [e] at h

theorem f32_round_two : f32.round 2 = f32.fin 2 := by
  have := f32_round_intCast 2 (by norm_num)
  simpa using this

/-- C2: with attack 1.0, decay 0.5, sustain 0.6 (the binary32 value `0.6f`) and
release 2.0, from an Idle state with level 0, the calls note-on, three updates
of 0.5, note-off and two updates of 1.0 give after the five updates
(level 0.5, Attack), (level 1, Decay), (level 0.6, Sustain), (level 0.3, Release)
and (level 0, Idle), where 0.6 and 0.3 are the binary32 values `0.6f` and
`0.6f / 2`; the list also shows the states right after the two note events. -/
theorem C2_adsr_scenario (s0 : sound_system_t)
    (h_attack : s0.attack_time = f32.fin 1) (h_decay : s0.decay_time = f32.fin (1 / 2))
    (h_sustain : s0.sustain_level = f32.fin (5033165 / 8388608))
    (h_release : s0.release_time = f32.fin 2)
    (_h_stage : s0.adsr_state = ADSR_IDLE) (h_level : s0.envelope_level = f32.fin 0) :
    (adsr_trace s0
        [adsr_call.note_on, adsr_call.update (f32.fin (1 / 2)),
         adsr_call.update (f32.fin (1 / 2)), adsr_call.update (f32.fin (1 / 2)),
         adsr_call.note_off, adsr_call.update (f32.fin 1),
         adsr_call.update (f32.fin 1)]).map (fun s => (s.envelope_level, s.adsr_state)) =
      [(f32.fin 0, ADSR_ATTACK), (f32.fin (1 / 2), ADSR_ATTACK), (f32.fin 1, ADSR_DECAY),
       (f32.fin (5033165 / 8388608), ADSR_SUSTAIN),
       (f32.fin (5033165 / 8388608), ADSR_RELEASE),
       (f32.fin (5033165 / 16777216), ADSR_RELEASE), (f32.fin 0, ADSR_IDLE)] ∧
    f32.round (3 / 5) = f32.fin (5033165 / 8388608) ∧
    f32.round (3 / 10) = f32.fin (5033165 / 16777216) := by
  have a1 : f32.add f32.zero (f32.fin (1 / 2)) = f32.fin (1 / 2) := by
    show f32.round (0 + 1 / 2) = _
    rw [zero_add]; exact f32_round_half
  have d1 : f32.div (f32.fin (1 / 2)) (f32.fin 1) = f32.fin (1 / 2) := by
    simp only [f32.div]
    rw [if_neg (by norm_num), div_one]; exact f32_round_half
  have a2 : f32.add (f32.fin (1 / 2)) (f32.fin (1 / 2)) = f32.fin 1 := by
    show f32.round (1 / 2 + 1 / 2) = _
    rw [show (1 / 2 + 1 / 2 : ℚ) = 1 by norm_num]; exact f32_round_one
  have d2 : f32.div (f32.fin 1) (f32.fin 1) = f32.fin 1 := by
    simp only [f32.div]
    rw [if_neg (by norm_num), div_one]; exact f32_round_one
  have d3 : f32.div (f32.fin (1 / 2)) (f32.fin (1 / 2)) = f32.fin 1 := by
    simp only [f32.div]
    rw [if_neg (by norm_num), show (1 / 2 / (1 / 2) : ℚ) = 1 by norm_num]
    exact f32_round_one
  have a4 : f32.add f32.zero (f32.fin 1) = f32.fin 1 := by
    show f32.round (0 + 1) = _
    rw [zero_add]; exact f32_round_one
  have d4 : f32.div (f32.fin 1) (f32.fin 2) = f32.fin (1 / 2) := by
    simp only [f32.div]
    rw [if_neg (by norm_num)]; exact f32_round_half
  have r3 : f32.round (5033165 / 16777216) = f32.fin (5033165 / 16777216) := by
    have h := f32_round_scaled_int 5033165 (-24) (by norm_num) (by norm_num)
      (abs_le.mpr ⟨by norm_num [f32_max], by norm_num [f32_max]⟩)
    have e : ((5033165 : Int) : ℚ) * (2 : ℚ) ^ (-24 : Int) = 5033165 / 16777216 := by norm_num
    rwa [e] at h
  have l4 : f32.mul (f32.fin (5033165 / 8388608)) (f32.sub f32.one (f32.fin (1 / 2)))
      = f32.fin (5033165 / 16777216) := by
    have h1 : f32.sub f32.one (f32.fin (1 / 2)) = f32.fin (1 / 2) := by
      show f32.round (1 + -(1 / 2)) = _
      rw [show (1 + -(1 / 2) : ℚ) = 1 / 2 by norm_num]; exact f32_round_half
    rw [h1]
    show f32.round (5033165 / 8388608 * (1 / 2)) = _
    rw [show (5033165 / 8388608 * (1 / 2) : ℚ) = 5033165 / 16777216 by norm_num]
    exact r3
  have a5 : f32.add (f32.fin 1) (f32.fin 1) = f32.fin 2 := by
    show f32.round (1 + 1) = _
    rw [show (1 + 1 : ℚ) = 2 by norm_num]; exact f32_round_two
  have d5 : f32.div (f32.fin 2) (f32.fin 2) = f32.fin 1 := by
    simp only [f32.div]
    rw [if_neg (by norm_num), show (2 / 2 : ℚ) = 1 by norm_num]
    exact f32_round_one
  have e1 : adsr_note_on s0 = { s0 with adsr_state := ADSR_ATTACK, adsr_timer := f32.zero } :=
    rfl
  have e2 : adsr_update { s0 with adsr_state := ADSR_ATTACK, adsr_timer := f32.zero }
      (f32.fin (1 / 2)) =
      { s0 with adsr_state := ADSR_ATTACK, adsr_timer := f32.fin (1 / 2),
                envelope_level := f32.fin (1 / 2) } := by
    rw [adsr_update_attack_ramp _ _ rfl (by simp only [h_attack]; rfl)
      (by simp only [h_attack, a1, d1, f32_ge_one_fin]; norm_num)]
    simp only [h_attack, a1, d1]
    rw [adsr_update_clamp_of_in_unit _ ⟨1 / 2, rfl, by norm_num, by norm_num⟩]
  have e3 : adsr_update
      { s0 with adsr_state := ADSR_ATTACK, adsr_timer := f32.fin (1 / 2),
                envelope_level := f32.fin (1 / 2) } (f32.fin (1 / 2)) =
      { s0 with adsr_state := ADSR_DECAY, adsr_timer := f32.zero,
                envelope_level := f32.one } := by
    rw [adsr_update_attack_done _ _ rfl (by simp only [h_attack]; rfl)
      (by simp only [h_attack, a2, d2]; rfl)]
  have e4 : adsr_update
      { s0 with adsr_state := ADSR_DECAY, adsr_timer := f32.zero,
                envelope_level := f32.one } (f32.fin (1 / 2)) =
      { s0 with adsr_state := ADSR_SUSTAIN, adsr_timer := f32.zero,
                envelope_level := f32.fin (5033165 / 8388608) } := by
    rw [adsr_update_decay_done _ _ rfl (by simp only [h_decay, f32_gt_zero_fin]; norm_num)
      (by simp only [h_decay, a1, d3]; rfl)]
    simp only [h_sustain]
    rw [adsr_update_clamp_of_in_unit _ ⟨_, rfl, by norm_num, by norm_num⟩]
  have e5 : adsr_note_off
      { s0 with adsr_state := ADSR_SUSTAIN, adsr_timer := f32.zero,
                envelope_level := f32.fin (5033165 / 8388608) } =
      { s0 with adsr_state := ADSR_RELEASE, adsr_timer := f32.zero,
                envelope_level := f32.fin (5033165 / 8388608) } := by
    simp [adsr_note_off]
  have e6 : adsr_update
      { s0 with adsr_state := ADSR_RELEASE, adsr_timer := f32.zero,
                envelope_level := f32.fin (5033165 / 8388608) } (f32.fin 1) =
      { s0 with adsr_state := ADSR_RELEASE, adsr_timer := f32.fin 1,
                envelope_level := f32.fin (5033165 / 16777216) } := by
    rw [adsr_update_release_ramp _ _ rfl (by simp only [h_release]; rfl)
      (by simp only [h_release, a4, d4, f32_ge_one_fin]; norm_num)]
    simp only [h_release, h_sustain, a4, d4, l4]
    rw [adsr_update_clamp_of_in_unit _ ⟨_, rfl, by norm_num, by norm_num⟩]
  have e7 : adsr_update
      { s0 with adsr_state := ADSR_RELEASE, adsr_timer := f32.fin 1,
                envelope_level := f32.fin (5033165 / 16777216) } (f32.fin 1) =
      { s0 with adsr_state := ADSR_IDLE, adsr_timer := f32.zero,
                envelope_level := f32.zero } := by
    rw [adsr_update_release_done _ _ rfl (by simp only [h_release]; rfl)
      (by simp only [h_release, a5, d5]; rfl)]
  refine ⟨?_, ?_, ?_⟩
  · simp only [adsr_trace, adsr_call.run, List.map, e1, e2, e3, e4, e5, e6, e7]
    rw [h_level]
    rfl
  · have hx : (0 : ℚ) ≤ 3 / 5 := by norm_num
    have he : f32_exponent (3 / 5) = -1 := by
      apply f32_exponent_eq _ (-1) (by norm_num) <;> rw [abs_of_nonneg hx] <;> norm_num
    have hn : round_half_even ((3 / 5 : ℚ) / (2 : ℚ) ^ ((-1 : Int) - 23)) = 10066330 := by
      apply round_half_even_eq_of_lt <;> norm_num
    have hv := f32_nearest_eq_of_binade _ (-1) 10066330 hx he hn
    rw [f32_round_of_abs_le_max _ (by rw [abs_of_nonneg hx]; norm_num [f32_max]), hv]
    norm_num
  · have hx : (0 : ℚ) ≤ 3 / 10 := by norm_num
    have he : f32_exponent (3 / 10) = -2 := by
      apply f32_exponent_eq _ (-2) (by norm_num) <;> rw [abs_of_nonneg hx] <;> norm_num
    have hn : round_half_even ((3 / 10 : ℚ) / (2 : ℚ) ^ ((-2 : Int) - 23)) = 10066330 := by
      apply round_half_even_eq_of_lt <;> norm_num
    have hv := f32_nearest_eq_of_binade _ (-2) 10066330 hx he hn
    rw [f32_round_of_abs_le_max _ (by rw [abs_of_nonneg hx]; norm_num [f32_max]), hv]
    norm_num

/-- C2 witness: the scenario run on the initialiser of `main.c` with the four
envelope parameters of the scenario. -/
theorem C2_adsr_scenario_witness :
    (adsr_trace { g_sound_system with attack_time := f32.fin 1, decay_time := f32.fin (1 / 2),
                                      sustain_level := f32.fin (5033165 / 8388608),
                                      release_time := f32.fin 2 }
        [adsr_call.note_on, adsr_call.update (f32.fin (1 / 2)),
         adsr_call.update (f32.fin (1 / 2)), adsr_call.update (f32.fin (1 / 2)),
         adsr_call.note_off, adsr_call.update (f32.fin 1),
         adsr_call.update (f32.fin 1)]).map (fun s => (s.envelope_level, s.adsr_state)) =
      [(f32.fin 0, ADSR_ATTACK), (f32.fin (1 / 2), ADSR_ATTACK), (f32.fin 1, ADSR_DECAY),
       (f32.fin (5033165 / 8388608), ADSR_SUSTAIN),
       (f32.fin (5033165 / 8388608), ADSR_RELEASE),
       (f32.fin (5033165 / 16777216), ADSR_RELEASE), (f32.fin 0, ADSR_IDLE)] :=
  (C2_adsr_scenario _ rfl rfl rfl rfl rfl rfl).1

/-! ### Casts -/

theorem float_trunc_of_nonneg (x : ℚ) (h : 0 ≤ x) : float_trunc x = ⌊x⌋ := by
  simp [float_trunc, h]

theorem float_trunc_intCast (z : Int) : float_trunc (z : ℚ) = z := by
  unfold float_trunc
  split <;> simp

theorem float_to_uint_intCast (w : Nat) (z : Int) (h0 : 0 ≤ z) (h1 : z < 2 ^ w) :
    float_to_uint w (z : ℚ) = z.toNat := by
  unfold float_to_uint
  rw [float_trunc_intCast, Int.emod_eq_of_lt h0 h1]

theorem float_to_uint_of_range (w : Nat) (x : ℚ) (h0 : 0 ≤ x) (h1 : x < 2 ^ w) :
    ((float_to_uint w x : Nat) : Int) = ⌊x⌋ := by
  have hf0 : (0 : Int) ≤ ⌊x⌋ := Int.floor_nonneg.mpr h0
  have hf1 : ⌊x⌋ < (2 : Int) ^ w := by
    have : ((⌊x⌋ : Int) : ℚ) < (((2 : Int) ^ w : Int) : ℚ) := by
      push_cast
      exact lt_of_le_of_lt (Int.floor_le x) h1
    exact_mod_cast this
  unfold float_to_uint
  rw [float_trunc_of_nonneg x h0, Int.emod_eq_of_lt hf0 hf1, Int.toNat_of_nonneg hf0]

/-! ### Waveform generator: range of the raw byte -/

theorem int_to_uint8_lt (n : Int) : int_to_uint8 n < 256 := by
  unfold int_to_uint8
  have h0 : 0 ≤ n % 256 := Int.emod_nonneg n (by norm_num)
  have h1 : n % 256 < 256 := Int.emod_lt_of_pos n (by norm_num)
  omega

set_option maxRecDepth 100000 in
theorem sine_table_length : sine_table.length = 256 := by decide

set_option maxRecDepth 100000 in
theorem sine_table_entry_lt : ∀ x ∈ sine_table, x < 256 := by decide

theorem generate_sine_wave_lt (phase : Nat) : generate_sine_wave phase < 256 := by
  unfold generate_sine_wave
  have hi : (phase >>> 8) % 256 < sine_table.length := by
    rw [sine_table_length]; exact Nat.mod_lt _ (by norm_num)
  simp only []
  rw [List.getD_eq_getElem _ _ hi]
  exact sine_table_entry_lt _ (List.getElem_mem _)

theorem base_waveform_sample_lt (s : sound_system_t) (phase : Nat) :
    base_waveform_sample s phase < 256 := by
  unfold base_waveform_sample
  split
  · unfold generate_square_wave
    simp only []
    split <;> norm_num
  · exact int_to_uint8_lt _
  · exact Nat.mod_lt _ (by norm_num)
  · exact generate_sine_wave_lt _
  · norm_num

/-! ### Mixer: the envelope step -/

theorem f32_nearest_natCast (n : Nat) (h : n < 16777216) : f32_nearest (n : ℚ) = n := by
  have := f32_nearest_intCast (n : Int) (by rw [abs_of_nonneg (by omega)]; omega)
  simpa using this

/-- The envelope step at a finite level in `[0, 1]`: both roundings stay
finite, and the value lies between the raw byte and 128. -/
theorem envelope_value_fin (sample : Nat) (l : ℚ)
    (h_raw : sample ≤ 255) (h_l0 : 0 ≤ l) (h_l1 : l ≤ 1) :
    envelope_value sample (f32.fin l) =
      f32.fin (f32_nearest (f32_nearest (((sample : ℚ) - 128) * l) + 128)) ∧
    min (sample : ℚ) 128 ≤ f32_nearest (f32_nearest (((sample : ℚ) - 128) * l) + 128) ∧
    f32_nearest (f32_nearest (((sample : ℚ) - 128) * l) + 128) ≤ max (sample : ℚ) 128 := by
  have hs0 : (0 : ℚ) ≤ (sample : ℚ) := Nat.cast_nonneg sample
  have hs1 : (sample : ℚ) ≤ 255 := by exact_mod_cast h_raw
  have hk : f32.of_int ((sample : Int) - 128) = f32.fin ((sample : ℚ) - 128) := by
    rw [f32_of_int_small _ (by rw [abs_lt]; constructor <;> omega)]
    push_cast; rfl
  have h128 : f32.of_int 128 = f32.fin 128 := by
    rw [f32_of_int_small _ (by norm_num)]
    norm_num
  have hfixk : f32_nearest ((sample : ℚ) - 128) = (sample : ℚ) - 128 := by
    have := f32_nearest_intCast ((sample : Int) - 128) (by rw [abs_lt]; constructor <;> omega)
    push_cast at this
    exact this
  have hfixs : f32_nearest (sample : ℚ) = sample := f32_nearest_natCast sample (by omega)
  have hfix128 : f32_nearest (128 : ℚ) = 128 := by
    have := f32_nearest_natCast 128 (by norm_num)
    simpa using this
  -- the rounded product lies between 0 and sample - 128
  have hprod : min ((sample : ℚ) - 128) 0 ≤ f32_nearest (((sample : ℚ) - 128) * l) ∧
      f32_nearest (((sample : ℚ) - 128) * l) ≤ max ((sample : ℚ) - 128) 0 := by
    rcases le_total ((sample : ℚ) - 128) 0 with h | h
    · rw [min_eq_left h, max_eq_right h]
      constructor
      · have := f32_nearest_mono (show (sample : ℚ) - 128 ≤ ((sample : ℚ) - 128) * l by nlinarith)
        rwa [hfixk] at this
      · exact f32_nearest_nonpos (by nlinarith)
    · rw [min_eq_right h, max_eq_left h]
      constructor
      · exact f32_nearest_nonneg (by nlinarith)
      · have := f32_nearest_mono (show ((sample : ℚ) - 128) * l ≤ (sample : ℚ) - 128 by nlinarith)
        rwa [hfixk] at this
  have hsum : min (sample : ℚ) 128 ≤ f32_nearest (f32_nearest (((sample : ℚ) - 128) * l) + 128) ∧
      f32_nearest (f32_nearest (((sample : ℚ) - 128) * l) + 128) ≤ max (sample : ℚ) 128 := by
    rcases le_total ((sample : ℚ) - 128) 0 with h | h
    · rw [min_eq_left h, max_eq_right h] at hprod
      rw [min_eq_left (by linarith), max_eq_right (by linarith)]
      constructor
      · have := f32_nearest_mono
          (show (sample : ℚ) ≤ f32_nearest (((sample : ℚ) - 128) * l) + 128 by linarith)
        rwa [hfixs] at this
      · have := f32_nearest_mono
          (show f32_nearest (((sample : ℚ) - 128) * l) + 128 ≤ 128 by linarith)
        rwa [hfix128] at this
    · rw [min_eq_right h, max_eq_left h] at hprod
      rw [min_eq_right (by linarith), max_eq_left (by linarith)]
      constructor
      · have := f32_nearest_mono
          (show (128 : ℚ) ≤ f32_nearest (((sample : ℚ) - 128) * l) + 128 by linarith)
        rwa [hfix128] at this
      · have := f32_nearest_mono
          (show f32_nearest (((sample : ℚ) - 128) * l) + 128 ≤ (sample : ℚ) by linarith)
        rwa [hfixs] at this
  refine ⟨?_, hsum⟩
  have hpb : |((sample : ℚ) - 128) * l| ≤ f32_max := by
    rw [abs_le]
    constructor
    · have : (-128 : ℚ) ≤ ((sample : ℚ) - 128) * l := by nlinarith
      exact le_trans (by norm_num [f32_max]) this
    · have : ((sample : ℚ) - 128) * l ≤ 127 := by nlinarith
      exact le_trans this (by norm_num [f32_max])
  have hmin : (-128 : ℚ) ≤ min ((sample : ℚ) - 128) 0 := le_min (by linarith) (by norm_num)
  have hmax : max ((sample : ℚ) - 128) 0 ≤ 127 := max_le (by linarith) (by norm_num)
  have hsb : |f32_nearest (((sample : ℚ) - 128) * l) + 128| ≤ f32_max := by
    rw [abs_le]
    constructor
    · exact le_trans (by norm_num [f32_max]) (by linarith [hprod.1] : (0 : ℚ) ≤ _)
    · exact le_trans (by linarith [hprod.2] : _ ≤ (255 : ℚ)) (by norm_num [f32_max])
  unfold envelope_value
  rw [hk, h128]
  simp only [f32.mul, f32.add]
  rw [f32_round_of_abs_le_max _ hpb]
  simp only [f32.add]
  rw [f32_round_of_abs_le_max _ hsb]

theorem envelope_value_zero (sample : Nat) (h : sample ≤ 255) :
    envelope_value sample (f32.fin 0) = f32.fin 128 := by
  rw [(envelope_value_fin sample 0 h (le_refl 0) zero_le_one).1]
  rw [mul_zero, f32_nearest_zero, zero_add]
  have := f32_nearest_natCast 128 (by norm_num)
  simp only [Nat.cast_ofNat] at this
  rw [this]

theorem envelope_value_one (sample : Nat) (h : sample ≤ 255) :
    envelope_value sample (f32.fin 1) = f32.fin sample := by
  rw [(envelope_value_fin sample 1 h zero_le_one (le_refl 1)).1]
  have hk : f32_nearest ((sample : ℚ) - 128) = (sample : ℚ) - 128 := by
    have := f32_nearest_intCast ((sample : Int) - 128) (by rw [abs_lt]; constructor <;> omega)
    push_cast at this
    exact this
  rw [mul_one, hk, sub_add_cancel, f32_nearest_natCast sample (by omega)]

theorem float_to_uint_natCast (w n : Nat) (h : n < 2 ^ w) :
    float_to_uint w (n : ℚ) = n := by
  have := float_to_uint_intCast w (n : Int) (by omega) (by exact_mod_cast h)
  simpa using this

theorem apply_envelope_zero (sample : Nat) (h : sample ≤ 255) :
    apply_envelope sample (f32.fin 0) = 128 := by
  unfold apply_envelope
  rw [envelope_value_zero sample h]
  have := float_to_uint_natCast 8 128 (by norm_num)
  simpa [f32.to_uint] using this

theorem apply_envelope_one (sample : Nat) (h : sample ≤ 255) :
    apply_envelope sample (f32.fin 1) = sample := by
  unfold apply_envelope
  rw [envelope_value_one sample h]
  exact float_to_uint_natCast 8 sample (by norm_num; omega)

/-- C3: in every state, `generate_waveform_sample` returns exactly 128 when the
envelope level is 0, and exactly the raw byte of the selected waveform
generator when the envelope level is 1. -/
theorem C3_envelope_extremes (s : sound_system_t) :
    (s.envelope_level = f32.fin 0 → generate_waveform_sample s = 128) ∧
    (s.envelope_level = f32.fin 1 →
      generate_waveform_sample s =
        base_waveform_sample s ((s.phase_accumulator >>> 16) % 65536)) := by
  have hb := base_waveform_sample_lt s ((s.phase_accumulator >>> 16) % 65536)
  constructor
  · intro h
    simp only [generate_waveform_sample, adsr_get_level, h]
    exact apply_envelope_zero _ (by omega)
  · intro h
    simp only [generate_waveform_sample, adsr_get_level, h]
    exact apply_envelope_one _ (by omega)

/-- C3 witness: a silent sawtooth state and a full-level sine state. -/
theorem C3_envelope_extremes_witness :
    generate_waveform_sample
        { g_sound_system with current_waveform := WAVEFORM_SAWTOOTH,
                              envelope_level := f32.fin 0,
                              phase_accumulator := 3000000000 } = 128 ∧
    generate_waveform_sample
        { g_sound_system with current_waveform := WAVEFORM_SINE, envelope_level := f32.fin 1,
                              phase_accumulator := 1000000000 } =
      base_waveform_sample
        { g_sound_system with current_waveform := WAVEFORM_SINE, envelope_level := f32.fin 1,
                              phase_accumulator := 1000000000 }
        ((1000000000 >>> 16) % 65536) :=
  ⟨(C3_envelope_extremes _).1 rfl, (C3_envelope_extremes _).2 rfl⟩

/-! ### The sample interrupt -/

/-- C4: one firing of `pwm_interrupt_handler`.  With the output enabled the
emitted byte is `generate_waveform_sample` of the state before the advance,
that is the envelope step applied to the raw byte at the phase index given by
the top 16 bits of `phase_accumulator` with the stored envelope level, and the
state afterwards differs only in `phase_accumulator`, which becomes
`(phase_accumulator + phase_increment) mod 2^32`.  With the output disabled
the emitted byte is 128 and the state is unchanged. -/
theorem C4_pwm_interrupt_handler (s : sound_system_t) :
    (s.output_enabled = true →
      (pwm_interrupt_handler s).1 = generate_waveform_sample s ∧
      (pwm_interrupt_handler s).1 =
        apply_envelope (base_waveform_sample s ((s.phase_accumulator >>> 16) % 65536))
          s.envelope_level ∧
      (s.phase_accumulator < 2 ^ 32 →
        (s.phase_accumulator >>> 16) % 65536 = s.phase_accumulator / 2 ^ 16) ∧
      (pwm_interrupt_handler s).2 =
        { s with phase_accumulator :=
                   (s.phase_accumulator + s.phase_increment) % 2 ^ 32 }) ∧
    (s.output_enabled = false → pwm_interrupt_handler s = (128, s)) := by
  constructor
  · intro h
    refine ⟨?_, ?_, ?_, ?_⟩
    · simp [pwm_interrupt_handler, h]
    · simp [pwm_interrupt_handler, h, generate_waveform_sample, adsr_get_level]
    · intro hlt
      rw [Nat.shiftRight_eq_div_pow]
      apply Nat.mod_eq_of_lt
      omega
    · simp [pwm_interrupt_handler, h]
  · intro h
    simp [pwm_interrupt_handler, h]

/-- C4 witness: an enabled state whose phase wraps past `2^32`, and the
disabled initial state. -/
theorem C4_pwm_interrupt_handler_witness :
    (pwm_interrupt_handler
        { g_sound_system with output_enabled := true, phase_accumulator := 4294967295,
                              phase_increment := 2 }).2 =
      { g_sound_system with output_enabled := true,
                            phase_accumulator := (4294967295 + 2) % 2 ^ 32,
                            phase_increment := 2 } ∧
    pwm_interrupt_handler g_sound_system = (128, g_sound_system) :=
  ⟨((C4_pwm_interrupt_handler _).1 rfl).2.2.2, (C4_pwm_interrupt_handler _).2 rfl⟩


/-! ### The phase increment -/

theorem f32_of_int_sample_rate : f32.of_int (SAMPLE_RATE : Int) = f32.fin 44100 := by
  rw [f32_of_int_small _ (by norm_num [SAMPLE_RATE])]
  norm_num [SAMPLE_RATE]

theorem f32_nearest_pos_rel {x : ℚ} (h : 1 ≤ x) :
    |f32_nearest x - x| ≤ x / 16777216 := by
  have hx : |x| = x := abs_of_nonneg (by linarith)
  have := f32_nearest_rel_error x (by
    rw [hx]
    exact le_trans (by norm_num) h)
  rwa [hx] at this

/-- The binary32 quotient computed by `update_phase_accumulator` for a
frequency in the audio band. -/
theorem phase_quotient_f32 (f : ℚ) (h0 : 20 ≤ f) (h1 : f ≤ 20000) :
    f32.div (f32.mul (f32.fin f) (f32.fin 4294967296)) (f32.of_int (SAMPLE_RATE : Int)) =
      f32.fin (f32_nearest (f32_nearest (f * 4294967296) / 44100)) ∧
    (1947830 : ℚ) ≤ f32_nearest (f32_nearest (f * 4294967296) / 44100) ∧
    f32_nearest (f32_nearest (f * 4294967296) / 44100) ≤ 2147483648 ∧
    |f32_nearest (f32_nearest (f * 4294967296) / 44100) - f * 4294967296 / 44100|
      ≤ (f * 4294967296 / 44100) / 4194304 := by
  have hlo : f32_nearest (85899345920 : ℚ) = 85899345920 := by
    have h := f32_nearest_scaled_int 5 34 (by norm_num) (by norm_num)
    have e : ((5 : Int) : ℚ) * (2 : ℚ) ^ (34 : Int) = 85899345920 := by norm_num
    rwa [e] at h
  have hhi : f32_nearest (85899345920000 : ℚ) = 85899345920000 := by
    have h := f32_nearest_scaled_int 625 37 (by norm_num) (by norm_num)
    have e : ((625 : Int) : ℚ) * (2 : ℚ) ^ (37 : Int) = 85899345920000 := by norm_num
    rwa [e] at h
  have ha0 : (85899345920 : ℚ) ≤ f32_nearest (f * 4294967296) := by
    have := f32_nearest_mono (show (85899345920 : ℚ) ≤ f * 4294967296 by linarith)
    rwa [hlo] at this
  have ha1 : f32_nearest (f * 4294967296) ≤ 85899345920000 := by
    have := f32_nearest_mono (show f * 4294967296 ≤ (85899345920000 : ℚ) by linarith)
    rwa [hhi] at this
  have hq0 : (1947830 : ℚ) ≤ f32_nearest (f * 4294967296) / 44100 := by
    rw [le_div_iff₀ (by norm_num)]; linarith
  have hq1 : f32_nearest (f * 4294967296) / 44100 ≤ 2147483648 := by
    rw [div_le_iff₀ (by norm_num)]; linarith
  have hfix0 : f32_nearest (1947830 : ℚ) = 1947830 := by
    have := f32_nearest_natCast 1947830 (by norm_num)
    simpa using this
  have hfix1 : f32_nearest (2147483648 : ℚ) = 2147483648 := by
    have h := f32_nearest_scaled_int 1 31 (by norm_num) (by norm_num)
    have e : ((1 : Int) : ℚ) * (2 : ℚ) ^ (31 : Int) = 2147483648 := by norm_num
    rwa [e] at h
  have hr0 : (1947830 : ℚ) ≤ f32_nearest (f32_nearest (f * 4294967296) / 44100) := by
    have := f32_nearest_mono hq0
    rwa [hfix0] at this
  have hr1 : f32_nearest (f32_nearest (f * 4294967296) / 44100) ≤ 2147483648 := by
    have := f32_nearest_mono hq1
    rwa [hfix1] at this
  have herr : |f32_nearest (f32_nearest (f * 4294967296) / 44100) - f * 4294967296 / 44100|
      ≤ (f * 4294967296 / 44100) / 4194304 := by
    have e1 := f32_nearest_pos_rel (x := f * 4294967296) (by linarith)
    have e2 := f32_nearest_pos_rel (x := f32_nearest (f * 4294967296) / 44100) (by linarith)
    rw [abs_le] at e1 e2 ⊢
    have hX : 0 ≤ f * 4294967296 / 44100 := by positivity
    have hd : (f32_nearest (f * 4294967296) - f * 4294967296) / 44100 =
        f32_nearest (f * 4294967296) / 44100 - f * 4294967296 / 44100 := by ring
    have e1a : -(f * 4294967296 / 44100 / 16777216)
        ≤ f32_nearest (f * 4294967296) / 44100 - f * 4294967296 / 44100 := by
      rw [← hd, le_div_iff₀ (by norm_num)]
      have := e1.1
      linarith
    have e1b : f32_nearest (f * 4294967296) / 44100 - f * 4294967296 / 44100
        ≤ f * 4294967296 / 44100 / 16777216 := by
      rw [← hd, div_le_iff₀ (by norm_num)]
      have := e1.2
      linarith
    constructor <;> linarith [e2.1, e2.2]
  refine ⟨?_, hr0, hr1, herr⟩
  rw [f32_of_int_sample_rate]
  have hpb : |f * 4294967296| ≤ f32_max := by
    rw [abs_of_nonneg (by linarith)]
    exact le_trans (by linarith : f * 4294967296 ≤ 85899345920000) (by norm_num [f32_max])
  have hqb : |f32_nearest (f * 4294967296) / 44100| ≤ f32_max := by
    rw [abs_of_nonneg (by linarith)]
    exact le_trans hq1 (by norm_num [f32_max])
  simp only [f32.mul]
  rw [f32_round_of_abs_le_max _ hpb]
  simp only [f32.div]
  rw [if_neg (by norm_num), f32_round_of_abs_le_max _ hqb]

/-- C5 counterexample: at 21 Hz, inside the band, the code stores 2045222
while the nearest integer to `21 * 2^32 / 44100` (about 2045222.52) is
2045223. -/
theorem C5_round_counterexample :
    (20 : ℚ) ≤ 21 ∧ (21 : ℚ) ≤ 20000 ∧
    (update_phase_accumulator
      { g_sound_system with frequency := f32.fin 21 }).phase_increment = 2045222 ∧
    spec_increment 21 = 2045223 ∧
    (((update_phase_accumulator
      { g_sound_system with frequency := f32.fin 21 }).phase_increment : Nat) : Int)
      ≠ spec_increment 21 := by
  have hcode : (update_phase_accumulator
      { g_sound_system with frequency := f32.fin 21 }).phase_increment = 2045222 := by
    have hq := phase_quotient_f32 21 (by norm_num) (by norm_num)
    have hprod : f32_nearest ((21 : ℚ) * 4294967296) = 90194313216 := by
      have h := f32_nearest_scaled_int 21 32 (by norm_num) (by norm_num)
      have e : ((21 : Int) : ℚ) * (2 : ℚ) ^ (32 : Int) = 21 * 4294967296 := by norm_num
      rw [e] at h
      rw [h]; norm_num
    have hx : (0 : ℚ) ≤ 90194313216 / 44100 := by norm_num
    have he : f32_exponent (90194313216 / 44100) = 20 := by
      apply f32_exponent_eq _ 20 (by norm_num) <;> rw [abs_of_nonneg hx] <;> norm_num
    have hn : round_half_even ((90194313216 / 44100 : ℚ) / (2 : ℚ) ^ ((20 : Int) - 23))
        = 16361780 := by
      apply round_half_even_eq_of_lt <;> norm_num
    have hv : f32_nearest ((90194313216 : ℚ) / 44100) = 4090445 / 2 := by
      rw [f32_nearest_eq_of_binade _ 20 16361780 hx he hn]
      norm_num
    rw [hprod, hv] at hq
    simp only [update_phase_accumulator]
    rw [hq.1]
    have h := float_to_uint_of_range 32 (4090445 / 2) (by norm_num) (by norm_num)
    have hfl : ⌊(4090445 / 2 : ℚ)⌋ = 2045222 := by
      rw [Int.floor_eq_iff]; norm_num
    rw [hfl] at h
    show float_to_uint 32 (4090445 / 2) = 2045222
    exact_mod_cast h
  have hspec : spec_increment 21 = 2045223 := by
    unfold spec_increment spec_round
    rw [round_eq, Int.floor_eq_iff]
    norm_num [SAMPLE_RATE]
  refine ⟨by norm_num, by norm_num, hcode, hspec, ?_⟩
  rw [hcode, hspec]
  norm_num

/-- C5 (amended): for every frequency `f` in `[20, 20000]`,
`update_phase_accumulator` sets `phase_increment` to the integer part of the
binary32 quotient `fl(fl(f * 2^32) / 44100)`, where `fl` rounds to the nearest
binary32 value.  The result is below `2^32`, so the cast does not wrap, and it
differs from the exact quotient `f * 2^32 / 44100` by less than
`1 + (f * 2^32 / 44100) / 2^22`; it is in general neither the nearest integer
to the exact quotient nor its floor.  Every other field keeps its value. -/
theorem C5_phase_increment_binary32 (s : sound_system_t) (f : ℚ)
    (h_f : s.frequency = f32.fin f) (h_lo : 20 ≤ f) (h_hi : f ≤ 20000) :
    (((update_phase_accumulator s).phase_increment : Nat) : Int) =
      ⌊f32_nearest (f32_nearest (f * 2 ^ 32) / 44100)⌋ ∧
    (update_phase_accumulator s).phase_increment < 2 ^ 32 ∧
    |(((update_phase_accumulator s).phase_increment : Nat) : ℚ) - f * 2 ^ 32 / 44100|
      < 1 + (f * 2 ^ 32 / 44100) / 2 ^ 22 ∧
    update_phase_accumulator s =
      { s with phase_increment := (update_phase_accumulator s).phase_increment } := by
  have hq := phase_quotient_f32 f h_lo h_hi
  have e32 : (2 : ℚ) ^ 32 = 4294967296 := by norm_num
  have e22 : (2 : ℚ) ^ 22 = 4194304 := by norm_num
  rw [e32, e22]
  have hval : (update_phase_accumulator s).phase_increment =
      float_to_uint 32 (f32_nearest (f32_nearest (f * 4294967296) / 44100)) := by
    simp only [update_phase_accumulator, h_f]
    rw [hq.1]
    rfl
  have hfloor := float_to_uint_of_range 32
    (f32_nearest (f32_nearest (f * 4294967296) / 44100))
    (by linarith [hq.2.1]) (lt_of_le_of_lt hq.2.2.1 (by norm_num))
  rw [← hval] at hfloor
  have hfl0 := Int.floor_le (f32_nearest (f32_nearest (f * 4294967296) / 44100))
  have hfl1 := Int.lt_floor_add_one (f32_nearest (f32_nearest (f * 4294967296) / 44100))
  have hcast : (((update_phase_accumulator s).phase_increment : Nat) : ℚ) =
      ((⌊f32_nearest (f32_nearest (f * 4294967296) / 44100)⌋ : Int) : ℚ) := by
    rw [← hfloor]; norm_cast
  refine ⟨hfloor, ?_, ?_, rfl⟩
  · have h1 : ((⌊f32_nearest (f32_nearest (f * 4294967296) / 44100)⌋ : Int) : ℚ)
        < ((4294967296 : Int) : ℚ) := by
      push_cast
      linarith [hq.2.2.1]
    have h2 : ⌊f32_nearest (f32_nearest (f * 4294967296) / 44100)⌋ < 4294967296 := by
      exact_mod_cast h1
    rw [← hfloor] at h2
    norm_num
    exact_mod_cast h2
  · rw [hcast]
    have herr := hq.2.2.2
    rw [abs_le] at herr
    rw [abs_lt]
    constructor <;> linarith [herr.1, herr.2]

/-- C5 witness: the initial state, 440 Hz. -/
theorem C5_phase_increment_binary32_witness :
    g_sound_system.frequency = f32.fin 440 ∧ (20 : ℚ) ≤ 440 ∧ (440 : ℚ) ≤ 20000 ∧
    (((update_phase_accumulator g_sound_system).phase_increment : Nat) : Int) =
      ⌊f32_nearest (f32_nearest ((440 : ℚ) * 2 ^ 32) / 44100)⌋ :=
  ⟨rfl, by norm_num, by norm_num,
    (C5_phase_increment_binary32 g_sound_system 440 rfl (by norm_num) (by norm_num)).1⟩

/-! ### Envelope: the Attack, Decay and Release stages -/

theorem f32_lt_imp_not_ge {x y : f32} (h : f32.lt x y = true) : f32.ge x y = false := by
  cases x with
  | nan => simp [f32.lt] at h
  | fin a =>
    cases y with
    | nan => simp [f32.lt] at h
    | fin b =>
      simp only [f32.lt, decide_eq_true_eq] at h
      simp [f32.ge, f32.le, not_le.mpr h]
    | inf m =>
      cases m <;> simp [f32.lt] at h ⊢
      simp [f32.ge, f32.le]
  | inf n =>
    cases y with
    | nan => simp [f32.lt] at h
    | fin b =>
      cases n <;> simp [f32.lt] at h ⊢
      simp [f32.ge, f32.le]
    | inf m =>
      cases n <;> cases m <;> simp [f32.lt] at h ⊢
      simp [f32.ge, f32.le]

theorem f32_gt_zero_of_pos {a : ℚ} (h : 0 < a) : f32.gt (f32.fin a) f32.zero = true := by
  rw [f32_gt_zero_fin]; simpa using h

theorem f32_gt_zero_of_zero : f32.gt (f32.fin 0) f32.zero = false := by
  rw [f32_gt_zero_fin]; simp

/-- The tie that decides the stage counterexamples:
`(1 - 2^-24) + 2^-25` rounds to `1.0f` in binary32. -/
theorem f32_add_tie :
    f32.add (f32.fin (16777215 / 16777216)) (f32.fin (1 / 33554432)) = f32.fin 1 := by
  show f32.round (16777215 / 16777216 + 1 / 33554432) = f32.fin 1
  have hx : (0 : ℚ) ≤ 16777215 / 16777216 + 1 / 33554432 := by norm_num
  have he : f32_exponent (16777215 / 16777216 + 1 / 33554432) = -1 := by
    apply f32_exponent_eq _ (-1) (by norm_num) <;> rw [abs_of_nonneg hx] <;> norm_num
  have hn : round_half_even
      ((16777215 / 16777216 + 1 / 33554432 : ℚ) / (2 : ℚ) ^ ((-1 : Int) - 23)) = 16777216 := by
    rw [show (16777215 / 16777216 + 1 / 33554432 : ℚ) / (2 : ℚ) ^ ((-1 : Int) - 23)
      = ((16777215 : Int) : ℚ) + 1 / 2 by norm_num]
    rw [round_half_even_tie_odd 16777215 (by norm_num)]
    norm_num
  have hv := f32_nearest_eq_of_binade _ (-1) 16777216 hx he hn
  rw [f32_round_of_abs_le_max _ (by rw [abs_of_nonneg hx]; norm_num [f32_max]), hv]
  norm_num

theorem f32_div_one_one : f32.div (f32.fin 1) (f32.fin 1) = f32.fin 1 := by
  simp only [f32.div]
  rw [if_neg (by norm_num), div_one]; exact f32_round_one

/-- C6 counterexample: with `attack_time = 1`, `elapsed = 1 - 2^-24` and
`dt = 2^-25` the exact quotient `(elapsed + dt) / attack_time` is below 1, yet
the binary32 sum rounds to 1 and `adsr_update` moves to Decay with level 1
instead of staying in Attack. -/
theorem C6_attack_counterexample :
    (0 : ℚ) ≤ 16777215 / 16777216 ∧ (0 : ℚ) ≤ 1 / 33554432 ∧ (0 : ℚ) < 1 ∧
    ((16777215 / 16777216 + 1 / 33554432 : ℚ) / 1 < 1) ∧
    (adsr_update
      { g_sound_system with adsr_state := ADSR_ATTACK, attack_time := f32.fin 1,
                            adsr_timer := f32.fin (16777215 / 16777216) }
      (f32.fin (1 / 33554432))).adsr_state = ADSR_DECAY ∧
    (adsr_update
      { g_sound_system with adsr_state := ADSR_ATTACK, attack_time := f32.fin 1,
                            adsr_timer := f32.fin (16777215 / 16777216) }
      (f32.fin (1 / 33554432))).adsr_state ≠ ADSR_ATTACK := by
  have h : (adsr_update
      { g_sound_system with adsr_state := ADSR_ATTACK, attack_time := f32.fin 1,
                            adsr_timer := f32.fin (16777215 / 16777216) }
      (f32.fin (1 / 33554432))).adsr_state = ADSR_DECAY := by
    rw [adsr_update_attack_done _ _ rfl (f32_gt_zero_of_pos (by norm_num))
      (by simp only [f32_add_tie, f32_div_one_one]; rfl)]
  refine ⟨by norm_num, by norm_num, by norm_num, by norm_num, h, ?_⟩
  rw [h]; decide

/-- C6 (amended): one `adsr_update` in stage Attack with `elapsed ≥ 0` and
`dt ≥ 0`, writing `e` for the binary32 sum `elapsed + dt` and `e / attack_time`
for the binary32 quotient.  If `attack_time > 0` the level becomes
`min (e / attack_time) 1`; the stage becomes Decay with `elapsed = 0` exactly
when `e / attack_time ≥ 1`, and otherwise the stage stays Attack with
`elapsed = e`.  If `attack_time = 0` the result is level 1, stage Decay and
`elapsed = 0` for every `dt`. -/
theorem C6_attack_stage (s : sound_system_t) (t d a : ℚ)
    (h_stage : s.adsr_state = ADSR_ATTACK)
    (h_timer : s.adsr_timer = f32.fin t) (h_elapsed : 0 ≤ t) (h_dt : 0 ≤ d)
    (h_attack : s.attack_time = f32.fin a) :
    (0 < a →
      (adsr_update s (f32.fin d)).envelope_level =
        f32.min (f32.div (f32.add (f32.fin t) (f32.fin d)) (f32.fin a)) f32.one ∧
      (((adsr_update s (f32.fin d)).adsr_state = ADSR_DECAY ∧
          (adsr_update s (f32.fin d)).adsr_timer = f32.fin 0) ↔
        f32.ge (f32.div (f32.add (f32.fin t) (f32.fin d)) (f32.fin a)) f32.one = true) ∧
      (f32.ge (f32.div (f32.add (f32.fin t) (f32.fin d)) (f32.fin a)) f32.one = false →
        (adsr_update s (f32.fin d)).adsr_state = ADSR_ATTACK ∧
        (adsr_update s (f32.fin d)).adsr_timer = f32.add (f32.fin t) (f32.fin d))) ∧
    (a = 0 →
      (adsr_update s (f32.fin d)).envelope_level = f32.fin 1 ∧
      (adsr_update s (f32.fin d)).adsr_state = ADSR_DECAY ∧
      (adsr_update s (f32.fin d)).adsr_timer = f32.fin 0) := by
  constructor
  · intro ha
    have hgt : f32.gt s.attack_time f32.zero = true := by
      rw [h_attack]; exact f32_gt_zero_of_pos ha
    have hT : (f32.add (f32.fin t) (f32.fin d)).is_nonneg :=
      f32_add_is_nonneg (Or.inr ⟨t, rfl, h_elapsed⟩) (Or.inr ⟨d, rfl, h_dt⟩)
    have hP : (f32.div (f32.add (f32.fin t) (f32.fin d)) (f32.fin a)).is_nonneg :=
      f32_div_is_nonneg hT ha
    cases hge : f32.ge (f32.div (f32.add (f32.fin t) (f32.fin d)) (f32.fin a)) f32.one with
    | true =>
      rw [adsr_update_attack_done s _ h_stage hgt (by rw [h_timer, h_attack]; exact hge)]
      refine ⟨?_, ⟨fun _ => rfl, fun _ => ⟨rfl, rfl⟩⟩, fun hn => by simp at hn⟩
      show f32.one = _
      unfold f32.min
      rw [show f32.le f32.one (f32.div (f32.add (f32.fin t) (f32.fin d)) (f32.fin a)) = true
        from hge]
      rfl
    | false =>
      obtain ⟨p, hpe, hp0, hp1⟩ := f32_is_nonneg_not_ge_one hP hge
      rw [adsr_update_attack_ramp s _ h_stage hgt (by rw [h_timer, h_attack]; exact hge)]
      rw [adsr_update_clamp_of_in_unit _
        (by simp only [h_timer, h_attack, hpe]; exact ⟨p, rfl, hp0, le_of_lt hp1⟩)]
      refine ⟨?_, ⟨fun h => ?_, fun h => by simp at h⟩, fun _ => ⟨h_stage, ?_⟩⟩
      · show f32.div (f32.add s.adsr_timer (f32.fin d)) s.attack_time = _
        rw [h_timer, h_attack]
        unfold f32.min
        rw [show f32.le f32.one (f32.div (f32.add (f32.fin t) (f32.fin d)) (f32.fin a)) = false
          from hge]
        rfl
      · have h1 := h.1
        simp only [h_stage] at h1
        exact absurd h1 (by decide)
      · show f32.add s.adsr_timer (f32.fin d) = _
        rw [h_timer]
  · intro ha
    rw [adsr_update_attack_instant s _ h_stage (by rw [h_attack, ha]; exact f32_gt_zero_of_zero)]
    exact ⟨rfl, rfl, rfl⟩

/-- C6 witness: halfway through an attack of one second, and an attack time of
zero. -/
theorem C6_attack_stage_witness :
    (adsr_update { g_sound_system with adsr_state := ADSR_ATTACK, attack_time := f32.fin 1 }
      (f32.fin (1 / 2))).envelope_level =
      f32.min (f32.div (f32.add (f32.fin 0) (f32.fin (1 / 2))) (f32.fin 1)) f32.one ∧
    (adsr_update { g_sound_system with adsr_state := ADSR_ATTACK, attack_time := f32.fin 0 }
      (f32.fin (1 / 2))).adsr_state = ADSR_DECAY :=
  ⟨((C6_attack_stage { g_sound_system with adsr_state := ADSR_ATTACK, attack_time := f32.fin 1 }
      0 (1 / 2) 1 rfl rfl (le_refl 0) (by norm_num) rfl).1 (by norm_num)).1,
   ((C6_attack_stage { g_sound_system with adsr_state := ADSR_ATTACK, attack_time := f32.fin 0 }
      0 (1 / 2) 0 rfl rfl (le_refl 0) (by norm_num) rfl).2 rfl).2.1⟩

/-- C7 counterexample: with `decay_time = 1`, `elapsed = 1 - 2^-24` and
`dt = 2^-25` the exact progress `(elapsed + dt) / decay_time` is below 1, yet
the binary32 sum rounds to 1 and `adsr_update` moves to Sustain instead of
staying in Decay. -/
theorem C7_decay_counterexample :
    (0 : ℚ) ≤ 16777215 / 16777216 ∧ (0 : ℚ) ≤ 1 / 33554432 ∧ (0 : ℚ) < 1 ∧
    ((16777215 / 16777216 + 1 / 33554432 : ℚ) / 1 < 1) ∧
    (adsr_update
      { g_sound_system with adsr_state := ADSR_DECAY, decay_time := f32.fin 1,
                            adsr_timer := f32.fin (16777215 / 16777216) }
      (f32.fin (1 / 33554432))).adsr_state = ADSR_SUSTAIN ∧
    (adsr_update
      { g_sound_system with adsr_state := ADSR_DECAY, decay_time := f32.fin 1,
                            adsr_timer := f32.fin (16777215 / 16777216) }
      (f32.fin (1 / 33554432))).adsr_state ≠ ADSR_DECAY := by
  have h : (adsr_update
      { g_sound_system with adsr_state := ADSR_DECAY, decay_time := f32.fin 1,
                            adsr_timer := f32.fin (16777215 / 16777216) }
      (f32.fin (1 / 33554432))).adsr_state = ADSR_SUSTAIN := by
    rw [adsr_update_decay_done _ _ rfl (f32_gt_zero_of_pos (by norm_num))
      (by simp only [f32_add_tie, f32_div_one_one]; rfl), (adsr_update_clamp_state _).1]
  refine ⟨by norm_num, by norm_num, by norm_num, by norm_num, h, ?_⟩
  rw [h]; decide

/-- C7 (amended): one `adsr_update` in stage Decay with `sustain_level` in
`[0, 1]`, `elapsed ≥ 0` and `dt ≥ 0`, writing `e` for the binary32 sum
`elapsed + dt` and `progress` for the binary32 quotient `e / decay_time`.  If
`decay_time > 0` and `progress < 1` the level becomes the binary32 value of
`1 - progress * (1 - sustain_level)` (each operation rounded), which lies in
`[0, 1]`, and the stage stays Decay with `elapsed = e`; if `decay_time > 0` and
`progress ≥ 1`, or if `decay_time = 0`, the level becomes `sustain_level`, the
stage Sustain and `elapsed = 0`. -/
theorem C7_decay_stage (s : sound_system_t) (t d dc sl : ℚ)
    (h_stage : s.adsr_state = ADSR_DECAY)
    (h_sustain : s.sustain_level = f32.fin sl) (h_s0 : 0 ≤ sl) (h_s1 : sl ≤ 1)
    (h_timer : s.adsr_timer = f32.fin t) (h_elapsed : 0 ≤ t) (h_dt : 0 ≤ d)
    (h_decay : s.decay_time = f32.fin dc) :
    (0 < dc →
      f32.lt (f32.div (f32.add (f32.fin t) (f32.fin d)) (f32.fin dc)) f32.one = true →
      (adsr_update s (f32.fin d)).envelope_level =
        f32.sub f32.one
          (f32.mul (f32.div (f32.add (f32.fin t) (f32.fin d)) (f32.fin dc))
            (f32.sub f32.one (f32.fin sl))) ∧
      (adsr_update s (f32.fin d)).envelope_level.in_unit ∧
      (adsr_update s (f32.fin d)).adsr_state = ADSR_DECAY ∧
      (adsr_update s (f32.fin d)).adsr_timer = f32.add (f32.fin t) (f32.fin d)) ∧
    ((0 < dc ∧
        f32.ge (f32.div (f32.add (f32.fin t) (f32.fin d)) (f32.fin dc)) f32.one = true) ∨
      dc = 0 →
      (adsr_update s (f32.fin d)).envelope_level = f32.fin sl ∧
      (adsr_update s (f32.fin d)).adsr_state = ADSR_SUSTAIN ∧
      (adsr_update s (f32.fin d)).adsr_timer = f32.fin 0) := by
  have hsu : s.sustain_level.in_unit := ⟨sl, h_sustain, h_s0, h_s1⟩
  constructor
  · intro hd hlt
    have hgt : f32.gt s.decay_time f32.zero = true := by
      rw [h_decay]; exact f32_gt_zero_of_pos hd
    have hge := f32_lt_imp_not_ge hlt
    have hT : (f32.add (f32.fin t) (f32.fin d)).is_nonneg :=
      f32_add_is_nonneg (Or.inr ⟨t, rfl, h_elapsed⟩) (Or.inr ⟨d, rfl, h_dt⟩)
    have hP : (f32.div (f32.add (f32.fin t) (f32.fin d)) (f32.fin dc)).is_nonneg :=
      f32_div_is_nonneg hT hd
    obtain ⟨p, hpe, hp0, hp1⟩ := f32_is_nonneg_not_ge_one hP hge
    have h1 := f32_sub_one_unit h_s0 h_s1
    have h2 := f32_mul_unit hp0 (le_of_lt hp1) h1.2.1 h1.2.2
    have h3 := f32_sub_one_unit h2.2.1 h2.2.2
    have hlev : f32.sub f32.one
        (f32.mul (f32.div (f32.add (f32.fin t) (f32.fin d)) (f32.fin dc))
          (f32.sub f32.one (f32.fin sl))) =
        f32.fin (f32_nearest (1 - f32_nearest (p * f32_nearest (1 - sl)))) := by
      rw [hpe, h1.1, h2.1, h3.1]
    have hunit : (f32.sub f32.one
        (f32.mul (f32.div (f32.add (f32.fin t) (f32.fin d)) (f32.fin dc))
          (f32.sub f32.one (f32.fin sl)))).in_unit := by
      rw [hlev]; exact ⟨_, rfl, h3.2.1, h3.2.2⟩
    rw [adsr_update_decay_ramp s _ h_stage hgt (by rw [h_timer, h_decay]; exact hge)]
    rw [adsr_update_clamp_of_in_unit _
      (by simp only [h_timer, h_decay, h_sustain]; exact hunit)]
    refine ⟨?_, ?_, h_stage, ?_⟩
    · show f32.sub f32.one (f32.mul (f32.div (f32.add s.adsr_timer (f32.fin d)) s.decay_time)
        (f32.sub f32.one s.sustain_level)) = _
      rw [h_timer, h_decay, h_sustain]
    · show (f32.sub f32.one (f32.mul (f32.div (f32.add s.adsr_timer (f32.fin d)) s.decay_time)
        (f32.sub f32.one s.sustain_level))).in_unit
      rw [h_timer, h_decay, h_sustain]; exact hunit
    · show f32.add s.adsr_timer (f32.fin d) = _
      rw [h_timer]
  · intro h
    rcases h with ⟨hd, hp⟩ | hd
    · have hgt : f32.gt s.decay_time f32.zero = true := by
        rw [h_decay]; exact f32_gt_zero_of_pos hd
      rw [adsr_update_decay_done s _ h_stage hgt (by rw [h_timer, h_decay]; exact hp),
        adsr_update_clamp_of_in_unit _ hsu]
      exact ⟨h_sustain, rfl, rfl⟩
    · rw [adsr_update_decay_instant s _ h_stage
        (by rw [h_decay, hd]; exact f32_gt_zero_of_zero),
        adsr_update_clamp_of_in_unit _ hsu]
      exact ⟨h_sustain, rfl, rfl⟩

theorem f32_add_zero_half : f32.add (f32.fin 0) (f32.fin (1 / 2)) = f32.fin (1 / 2) := by
  show f32.round (0 + 1 / 2) = _
  rw [zero_add]; exact f32_round_half

theorem f32_div_half_one : f32.div (f32.fin (1 / 2)) (f32.fin 1) = f32.fin (1 / 2) := by
  simp only [f32.div]
  rw [if_neg (by norm_num), div_one]; exact f32_round_half

/-- C7 witness: a decay time of zero ends the stage at once, a decay of one
second is left after one second, and half a second into it the stage is still
Decay. -/
theorem C7_decay_stage_witness :
    (adsr_update { g_sound_system with adsr_state := ADSR_DECAY, decay_time := f32.fin 1 }
      (f32.fin (1 / 2))).adsr_state = ADSR_DECAY ∧
    (adsr_update { g_sound_system with adsr_state := ADSR_DECAY, decay_time := f32.fin 0 }
      (f32.fin (1 / 2))).adsr_state = ADSR_SUSTAIN ∧
    (adsr_update { g_sound_system with adsr_state := ADSR_DECAY, decay_time := f32.fin 1,
                                       adsr_timer := f32.fin (16777215 / 16777216) }
      (f32.fin (1 / 33554432))).envelope_level = f32.fin (11744051 / 16777216) :=
  ⟨((C7_decay_stage { g_sound_system with adsr_state := ADSR_DECAY, decay_time := f32.fin 1 }
      0 (1 / 2) 1 (11744051 / 16777216) rfl rfl (by norm_num) (by norm_num) rfl (le_refl 0)
      (by norm_num) rfl).1 (by norm_num)
      (by rw [f32_add_zero_half, f32_div_half_one]
          exact decide_eq_true (by norm_num : (1 / 2 : ℚ) < 1))).2.2.1,
   ((C7_decay_stage { g_sound_system with adsr_state := ADSR_DECAY, decay_time := f32.fin 0 }
      0 (1 / 2) 0 (11744051 / 16777216) rfl rfl (by norm_num) (by norm_num) rfl (le_refl 0)
      (by norm_num) rfl).2 (Or.inr rfl)).2.1,
   ((C7_decay_stage
      { g_sound_system with adsr_state := ADSR_DECAY, decay_time := f32.fin 1,
                            adsr_timer := f32.fin (16777215 / 16777216) }
      (16777215 / 16777216) (1 / 33554432) 1 (11744051 / 16777216) rfl rfl (by norm_num)
      (by norm_num) rfl (by norm_num) (by norm_num) rfl).2
      (Or.inl ⟨by norm_num, by rw [f32_add_tie, f32_div_one_one]; rfl⟩)).1⟩

/-- C8 counterexample: with `release_time = 1`, `elapsed = 1 - 2^-24` and
`dt = 2^-25` the exact progress `(elapsed + dt) / release_time` is below 1, yet
the binary32 sum rounds to 1 and `adsr_update` moves to Idle with level 0
instead of staying on the release ramp. -/
theorem C8_release_counterexample :
    (0 : ℚ) ≤ 16777215 / 16777216 ∧ (0 : ℚ) ≤ 1 / 33554432 ∧ (0 : ℚ) < 1 ∧
    ((16777215 / 16777216 + 1 / 33554432 : ℚ) / 1 < 1) ∧
    (adsr_update
      { g_sound_system with adsr_state := ADSR_RELEASE, release_time := f32.fin 1,
                            adsr_timer := f32.fin (16777215 / 16777216) }
      (f32.fin (1 / 33554432))).adsr_state = ADSR_IDLE ∧
    (adsr_update
      { g_sound_system with adsr_state := ADSR_RELEASE, release_time := f32.fin 1,
                            adsr_timer := f32.fin (16777215 / 16777216) }
      (f32.fin (1 / 33554432))).adsr_state ≠ ADSR_RELEASE := by
  have h : (adsr_update
      { g_sound_system with adsr_state := ADSR_RELEASE, release_time := f32.fin 1,
                            adsr_timer := f32.fin (16777215 / 16777216) }
      (f32.fin (1 / 33554432))).adsr_state = ADSR_IDLE := by
    rw [adsr_update_release_done _ _ rfl (f32_gt_zero_of_pos (by norm_num))
      (by simp only [f32_add_tie, f32_div_one_one]; rfl)]
  refine ⟨by norm_num, by norm_num, by norm_num, by norm_num, h, ?_⟩
  rw [h]; decide

/-- C8 (amended): one `adsr_update` in stage Release with `sustain_level` in
`[0, 1]`, `elapsed ≥ 0` and `dt ≥ 0`, writing `e` for the binary32 sum
`elapsed + dt` and `progress` for the binary32 quotient `e / release_time`.  If
`release_time > 0` and `progress < 1` the level becomes the binary32 value of
`sustain_level * (1 - progress)` (each operation rounded), which lies in
`[0, 1]`, and the stage stays Release with `elapsed = e`; if `release_time > 0`
and `progress ≥ 1`, or if `release_time = 0`, the level becomes 0, the stage
Idle and `elapsed = 0`.  The state after the update does not depend on
`envelope_level` before it. -/
theorem C8_release_stage (s : sound_system_t) (t d r sl : ℚ)
    (h_stage : s.adsr_state = ADSR_RELEASE)
    (h_sustain : s.sustain_level = f32.fin sl) (h_s0 : 0 ≤ sl) (h_s1 : sl ≤ 1)
    (h_timer : s.adsr_timer = f32.fin t) (h_elapsed : 0 ≤ t) (h_dt : 0 ≤ d)
    (h_release : s.release_time = f32.fin r) :
    (0 < r →
      f32.lt (f32.div (f32.add (f32.fin t) (f32.fin d)) (f32.fin r)) f32.one = true →
      (adsr_update s (f32.fin d)).envelope_level =
        f32.mul (f32.fin sl)
          (f32.sub f32.one (f32.div (f32.add (f32.fin t) (f32.fin d)) (f32.fin r))) ∧
      (adsr_update s (f32.fin d)).envelope_level.in_unit ∧
      (adsr_update s (f32.fin d)).adsr_state = ADSR_RELEASE ∧
      (adsr_update s (f32.fin d)).adsr_timer = f32.add (f32.fin t) (f32.fin d)) ∧
    ((0 < r ∧
        f32.ge (f32.div (f32.add (f32.fin t) (f32.fin d)) (f32.fin r)) f32.one = true) ∨
      r = 0 →
      (adsr_update s (f32.fin d)).envelope_level = f32.fin 0 ∧
      (adsr_update s (f32.fin d)).adsr_state = ADSR_IDLE ∧
      (adsr_update s (f32.fin d)).adsr_timer = f32.fin 0) ∧
    (∀ l dt : f32, adsr_update { s with envelope_level := l } dt = adsr_update s dt) := by
  refine ⟨?_, ?_, fun l dt => adsr_update_level_irrelevant s l dt⟩
  · intro hr hlt
    have hgt : f32.gt s.release_time f32.zero = true := by
      rw [h_release]; exact f32_gt_zero_of_pos hr
    have hge := f32_lt_imp_not_ge hlt
    have hT : (f32.add (f32.fin t) (f32.fin d)).is_nonneg :=
      f32_add_is_nonneg (Or.inr ⟨t, rfl, h_elapsed⟩) (Or.inr ⟨d, rfl, h_dt⟩)
    have hP : (f32.div (f32.add (f32.fin t) (f32.fin d)) (f32.fin r)).is_nonneg :=
      f32_div_is_nonneg hT hr
    obtain ⟨p, hpe, hp0, hp1⟩ := f32_is_nonneg_not_ge_one hP hge
    have h1 := f32_sub_one_unit hp0 (le_of_lt hp1)
    have h2 := f32_mul_unit h_s0 h_s1 h1.2.1 h1.2.2
    have hunit : (f32.mul (f32.fin sl)
        (f32.sub f32.one (f32.div (f32.add (f32.fin t) (f32.fin d)) (f32.fin r)))).in_unit := by
      rw [hpe, h1.1, h2.1]; exact ⟨_, rfl, h2.2.1, h2.2.2⟩
    rw [adsr_update_release_ramp s _ h_stage hgt (by rw [h_timer, h_release]; exact hge)]
    rw [adsr_update_clamp_of_in_unit _
      (by simp only [h_timer, h_release, h_sustain]; exact hunit)]
    refine ⟨?_, ?_, h_stage, ?_⟩
    · show f32.mul s.sustain_level
        (f32.sub f32.one (f32.div (f32.add s.adsr_timer (f32.fin d)) s.release_time)) = _
      rw [h_timer, h_release, h_sustain]
    · show (f32.mul s.sustain_level
        (f32.sub f32.one (f32.div (f32.add s.adsr_timer (f32.fin d)) s.release_time))).in_unit
      rw [h_timer, h_release, h_sustain]; exact hunit
    · show f32.add s.adsr_timer (f32.fin d) = _
      rw [h_timer]
  · intro h
    rcases h with ⟨hr, hp⟩ | hr
    · have hgt : f32.gt s.release_time f32.zero = true := by
        rw [h_release]; exact f32_gt_zero_of_pos hr
      rw [adsr_update_release_done s _ h_stage hgt (by rw [h_timer, h_release]; exact hp)]
      exact ⟨rfl, rfl, rfl⟩
    · rw [adsr_update_release_instant s _ h_stage
        (by rw [h_release, hr]; exact f32_gt_zero_of_zero)]
      exact ⟨rfl, rfl, rfl⟩

/-- C8 witness: a note released during the attack, level 0.2, with a release
time of zero, the same state with a release of one second left after one
second, and still on the ramp after half a second. -/
theorem C8_release_stage_witness :
    (adsr_update { g_sound_system with adsr_state := ADSR_RELEASE,
                                       envelope_level := f32.fin (1 / 5),
                                       release_time := f32.fin 1 }
      (f32.fin (1 / 2))).adsr_state = ADSR_RELEASE ∧
    (adsr_update { g_sound_system with adsr_state := ADSR_RELEASE,
                                       envelope_level := f32.fin (1 / 5),
                                       release_time := f32.fin 0 }
      (f32.fin (1 / 2))).adsr_state = ADSR_IDLE ∧
    (adsr_update { g_sound_system with adsr_state := ADSR_RELEASE,
                                       envelope_level := f32.fin (1 / 5),
                                       release_time := f32.fin 1,
                                       adsr_timer := f32.fin (16777215 / 16777216) }
      (f32.fin (1 / 33554432))).envelope_level = f32.fin 0 :=
  ⟨((C8_release_stage
      { g_sound_system with adsr_state := ADSR_RELEASE, envelope_level := f32.fin (1 / 5),
                            release_time := f32.fin 1 }
      0 (1 / 2) 1 (11744051 / 16777216) rfl rfl (by norm_num) (by norm_num) rfl (le_refl 0)
      (by norm_num) rfl).1 (by norm_num)
      (by rw [f32_add_zero_half, f32_div_half_one]
          exact decide_eq_true (by norm_num : (1 / 2 : ℚ) < 1))).2.2.1,
   ((C8_release_stage
      { g_sound_system with adsr_state := ADSR_RELEASE, envelope_level := f32.fin (1 / 5),
                            release_time := f32.fin 0 }
      0 (1 / 2) 0 (11744051 / 16777216) rfl rfl (by norm_num) (by norm_num) rfl (le_refl 0)
      (by norm_num) rfl).2.1 (Or.inr rfl)).2.1,
   ((C8_release_stage
      { g_sound_system with adsr_state := ADSR_RELEASE, envelope_level := f32.fin (1 / 5),
                            release_time := f32.fin 1,
                            adsr_timer := f32.fin (16777215 / 16777216) }
      (16777215 / 16777216) (1 / 33554432) 1 (11744051 / 16777216) rfl rfl (by norm_num)
      (by norm_num) rfl (by norm_num) (by norm_num) rfl).2.1
      (Or.inl ⟨by norm_num, by rw [f32_add_tie, f32_div_one_one]; rfl⟩)).1⟩

/-! ### Envelope: the note events -/

/-- C9: `adsr_note_on` yields stage Attack and `adsr_timer = 0` from every
state; `adsr_note_off` yields stage Release and `adsr_timer = 0` from every
state that is not Idle, and returns an Idle state unchanged.  In all three cases
every field other than `adsr_state` and `adsr_timer` keeps its value: the
envelope level, the four envelope parameters, the waveform kind, the duty
cycle, `output_enabled`, `phase_accumulator`, `phase_increment` and the rest. -/
theorem C9_note_events_frame (s : sound_system_t) :
    ((adsr_note_on s).adsr_state = ADSR_ATTACK ∧ (adsr_note_on s).adsr_timer = f32.fin 0 ∧
      s.same_outside_stage (adsr_note_on s)) ∧
    (s.adsr_state ≠ ADSR_IDLE →
      (adsr_note_off s).adsr_state = ADSR_RELEASE ∧ (adsr_note_off s).adsr_timer = f32.fin 0 ∧
      s.same_outside_stage (adsr_note_off s)) ∧
    (s.adsr_state = ADSR_IDLE →
      adsr_note_off s = s ∧ s.same_outside_stage (adsr_note_off s)) := by
  refine ⟨⟨rfl, rfl, ?_⟩, ?_, ?_⟩
  · simp [sound_system_t.same_outside_stage, adsr_note_on]
  · intro h
    simp [sound_system_t.same_outside_stage, adsr_note_off, h, f32.zero]
  · intro h
    simp [sound_system_t.same_outside_stage, adsr_note_off, h]

/-- C9 witness: note-off in the Idle initial state and in a Sustain state. -/
theorem C9_note_events_frame_witness :
    adsr_note_off g_sound_system = g_sound_system ∧
    (adsr_note_off { g_sound_system with adsr_state := ADSR_SUSTAIN, adsr_timer := f32.fin 3 }).adsr_state
      = ADSR_RELEASE ∧
    (adsr_note_off { g_sound_system with adsr_state := ADSR_SUSTAIN, adsr_timer := f32.fin 3 }).adsr_timer
      = f32.fin 0 :=
  ⟨((C9_note_events_frame g_sound_system).2.2 rfl).1,
   ((C9_note_events_frame { g_sound_system with adsr_state := ADSR_SUSTAIN, adsr_timer := f32.fin 3 }).2.1
      (by decide)).1,
   ((C9_note_events_frame { g_sound_system with adsr_state := ADSR_SUSTAIN, adsr_timer := f32.fin 3 }).2.1
      (by decide)).2.1⟩

/-! ### Mixer: the envelope step in general -/

theorem exact_mix_bounds (sample : Nat) (level : ℚ) (h_l0 : 0 ≤ level) (h_l1 : level ≤ 1) :
    min (sample : ℚ) 128 ≤ ((sample : ℚ) - 128) * level + 128 ∧
    ((sample : ℚ) - 128) * level + 128 ≤ max (sample : ℚ) 128 := by
  rcases le_total (sample : ℚ) 128 with h | h
  · rw [min_eq_left h, max_eq_right h]
    constructor <;> nlinarith
  · rw [min_eq_right h, max_eq_left h]
    constructor <;> nlinarith

theorem envelope_value_byte_range (sample : Nat) (l : ℚ)
    (h_raw : sample ≤ 255) (h_l0 : 0 ≤ l) (h_l1 : l ≤ 1) :
    0 ≤ f32_nearest (f32_nearest (((sample : ℚ) - 128) * l) + 128) ∧
    f32_nearest (f32_nearest (((sample : ℚ) - 128) * l) + 128) ≤ 255 := by
  have h := (envelope_value_fin sample l h_raw h_l0 h_l1).2
  have hs0 : (0 : ℚ) ≤ (sample : ℚ) := Nat.cast_nonneg sample
  have hs1 : (sample : ℚ) ≤ 255 := by exact_mod_cast h_raw
  constructor
  · exact le_trans (le_min hs0 (by norm_num)) h.1
  · exact le_trans h.2 (max_le hs1 (by norm_num))

theorem apply_envelope_floor (sample : Nat) (l : ℚ)
    (h_raw : sample ≤ 255) (h_l0 : 0 ≤ l) (h_l1 : l ≤ 1) :
    ((apply_envelope sample (f32.fin l) : Nat) : Int) =
      ⌊f32_nearest (f32_nearest (((sample : ℚ) - 128) * l) + 128)⌋ := by
  have hb := envelope_value_byte_range sample l h_raw h_l0 h_l1
  unfold apply_envelope
  rw [(envelope_value_fin sample l h_raw h_l0 h_l1).1]
  exact float_to_uint_of_range 8 _ hb.1 (lt_of_le_of_lt hb.2 (by norm_num))

/-- C10 counterexample: for the raw byte 255 and the level 0.25 the exact
value is 159.75 (no binary32 rounding occurs); the code produces 159, while
rounding to the nearest integer and clamping gives 160. -/
theorem C10_round_counterexample :
    (255 : Nat) ≤ 255 ∧ (0 : ℚ) ≤ 1 / 4 ∧ (1 / 4 : ℚ) ≤ 1 ∧
    apply_envelope 255 (f32.fin (1 / 4)) = 159 ∧ spec_mix 255 (1 / 4) = 160 ∧
    ((apply_envelope 255 (f32.fin (1 / 4)) : Nat) : Int) ≠ spec_mix 255 (1 / 4) := by
  have hcode : apply_envelope 255 (f32.fin (1 / 4)) = 159 := by
    have h := apply_envelope_floor 255 (1 / 4) (le_refl _) (by norm_num) (by norm_num)
    have h1 : f32_nearest ((((255 : Nat) : ℚ) - 128) * (1 / 4)) = 127 / 4 := by
      have h := f32_nearest_scaled_int 127 (-2) (by norm_num) (by norm_num)
      have e : ((127 : Int) : ℚ) * (2 : ℚ) ^ (-2 : Int) = (((255 : Nat) : ℚ) - 128) * (1 / 4) := by
        norm_num
      rw [e] at h; rw [h]; norm_num
    have h2 : f32_nearest ((127 / 4 : ℚ) + 128) = 639 / 4 := by
      have h := f32_nearest_scaled_int 639 (-2) (by norm_num) (by norm_num)
      have e : ((639 : Int) : ℚ) * (2 : ℚ) ^ (-2 : Int) = (127 / 4 : ℚ) + 128 := by norm_num
      rw [e] at h; rw [h]; norm_num
    rw [h1, h2] at h
    have hfl : ⌊(639 / 4 : ℚ)⌋ = 159 := by
      rw [Int.floor_eq_iff]; norm_num
    rw [hfl] at h
    exact_mod_cast h
  have hspec : spec_mix 255 (1 / 4) = 160 := by
    unfold spec_mix spec_round
    have hround : round ((((255 : Nat) : ℚ) - 128) * (1 / 4) + 128) = 160 := by
      rw [round_eq, Int.floor_eq_iff]; norm_num
    rw [hround]
    decide
  refine ⟨le_refl _, by norm_num, by norm_num, hcode, hspec, ?_⟩
  rw [hcode, hspec]
  norm_num

/-- C10 (amended): for every raw byte in `[0, 255]` and every level in
`[0, 1]`, the byte produced by the envelope step equals the integer part of
the binary32 value `fl(fl((raw - 128) * level) + 128)`, where `fl` rounds to
the nearest binary32 value (the fraction is discarded, not rounded to the
nearest integer), clamped to `[0, 255]`; the integer part already lies in
`[0, 255]`, so the clamp does not change it. -/
theorem C10_envelope_step_binary32 (raw : Nat) (level : ℚ)
    (h_raw : raw ≤ 255) (h_l0 : 0 ≤ level) (h_l1 : level ≤ 1) :
    ((apply_envelope raw (f32.fin level) : Nat) : Int) =
      clamp_byte ⌊f32_nearest (f32_nearest (((raw : ℚ) - 128) * level) + 128)⌋ ∧
    clamp_byte ⌊f32_nearest (f32_nearest (((raw : ℚ) - 128) * level) + 128)⌋ =
      ⌊f32_nearest (f32_nearest (((raw : ℚ) - 128) * level) + 128)⌋ := by
  have hb := envelope_value_byte_range raw level h_raw h_l0 h_l1
  have hf0 : (0 : Int) ≤ ⌊f32_nearest (f32_nearest (((raw : ℚ) - 128) * level) + 128)⌋ :=
    Int.floor_nonneg.mpr hb.1
  have hf1 : ⌊f32_nearest (f32_nearest (((raw : ℚ) - 128) * level) + 128)⌋ ≤ 255 := by
    have : ((⌊f32_nearest (f32_nearest (((raw : ℚ) - 128) * level) + 128)⌋ : Int) : ℚ)
        ≤ ((255 : Int) : ℚ) := by
      push_cast
      exact le_trans (Int.floor_le _) hb.2
    exact_mod_cast this
  have hclamp : clamp_byte ⌊f32_nearest (f32_nearest (((raw : ℚ) - 128) * level) + 128)⌋ =
      ⌊f32_nearest (f32_nearest (((raw : ℚ) - 128) * level) + 128)⌋ := by
    unfold clamp_byte
    rw [min_eq_right hf1, max_eq_right hf0]
  refine ⟨?_, hclamp⟩
  rw [hclamp]
  exact apply_envelope_floor raw level h_raw h_l0 h_l1

/-- C10 witness: the raw byte 255 at level 0.25. -/
theorem C10_envelope_step_binary32_witness :
    (255 : Nat) ≤ 255 ∧ (0 : ℚ) ≤ 1 / 4 ∧ (1 / 4 : ℚ) ≤ 1 ∧
    ((apply_envelope 255 (f32.fin (1 / 4)) : Nat) : Int) =
      clamp_byte ⌊f32_nearest (f32_nearest ((((255 : Nat) : ℚ) - 128) * (1 / 4)) + 128)⌋ :=
  ⟨le_refl _, by norm_num, by norm_num,
    (C10_envelope_step_binary32 255 (1 / 4) (le_refl _) (by norm_num) (by norm_num)).1⟩

/-! ### Square wave -/

theorem f32_of_int_65535 : f32.of_int 65535 = f32.fin 65535 := by
  rw [f32_of_int_small _ (by norm_num)]
  norm_num

theorem square_threshold_eq (d : ℚ) (h0 : 0 ≤ d) (h1 : d ≤ 1) :
    ((f32.to_uint 16 (f32.mul (f32.fin d) (f32.of_int 65535)) : Nat) : Int) =
      ⌊f32_nearest (d * 65535)⌋ := by
  have hx0 : 0 ≤ d * 65535 := mul_nonneg h0 (by norm_num)
  have hx1 : d * 65535 ≤ 65535 := by nlinarith
  have hfix : f32_nearest (65535 : ℚ) = 65535 := by
    have := f32_nearest_natCast 65535 (by norm_num)
    simpa using this
  have hn0 : 0 ≤ f32_nearest (d * 65535) := f32_nearest_nonneg hx0
  have hn1 : f32_nearest (d * 65535) ≤ 65535 := by
    have := f32_nearest_mono hx1
    rwa [hfix] at this
  rw [f32_of_int_65535]
  simp only [f32.mul]
  rw [f32_round_of_abs_le_max _ (by
    rw [abs_of_nonneg hx0]; exact le_trans hx1 (by norm_num [f32_max]))]
  exact float_to_uint_of_range 16 _ hn0 (lt_of_le_of_lt hn1 (by norm_num))

theorem square_threshold_half :
    f32.to_uint 16 (f32.mul (f32.fin (1 / 2)) (f32.of_int 65535)) = 32767 := by
  have h := square_threshold_eq (1 / 2) (by norm_num) (by norm_num)
  have hv : f32_nearest ((1 / 2 : ℚ) * 65535) = 65535 / 2 := by
    have h := f32_nearest_scaled_int 65535 (-1) (by norm_num) (by norm_num)
    have e : ((65535 : Int) : ℚ) * (2 : ℚ) ^ (-1 : Int) = (1 / 2 : ℚ) * 65535 := by norm_num
    rw [e] at h; rw [h]; norm_num
  have hfl : ⌊(65535 / 2 : ℚ)⌋ = 32767 := by
    rw [Int.floor_eq_iff]; norm_num
  rw [hv, hfl] at h
  exact_mod_cast h

/-- C11 counterexample: at duty cycle 0.5 and phase index 32767, which is
below `0.5 * 65536 = 32768`, the code returns 0, not 255. -/
theorem C11_square_counterexample :
    (0 : ℚ) ≤ 1 / 2 ∧ (1 / 2 : ℚ) ≤ 1 ∧ (32767 : Nat) < 65536 ∧
    ((32767 : Nat) : ℚ) < 1 / 2 * 65536 ∧
    spec_square 32767 (1 / 2) = 255 ∧
    generate_square_wave 32767 (f32.fin (1 / 2)) = 0 ∧
    generate_square_wave 32767 (f32.fin (1 / 2)) ≠ spec_square 32767 (1 / 2) := by
  have hcode : generate_square_wave 32767 (f32.fin (1 / 2)) = 0 := by
    unfold generate_square_wave
    simp only [square_threshold_half]
    decide
  have hspec : spec_square 32767 (1 / 2) = 255 := by
    unfold spec_square
    norm_num
  refine ⟨by norm_num, by norm_num, by norm_num, by norm_num, hspec, hcode, ?_⟩
  rw [hcode, hspec]
  decide

/-- C11 (amended): for every duty cycle `d` in `[0, 1]` and every 16-bit phase
index `p`, `generate_square_wave p d` is 255 if `p < ⌊fl(d * 65535)⌋` and 0
otherwise, where `fl` rounds the product to the nearest binary32 value; in
particular `generate_square_wave p 0.5` is 255 for exactly the indices
`p < 32767` and 0 for exactly the indices `32767 ≤ p`. -/
theorem C11_square_threshold (d : ℚ) (p : Nat)
    (h_d0 : 0 ≤ d) (h_d1 : d ≤ 1) (h_p : p < 65536) :
    generate_square_wave p (f32.fin d) =
      (if (p : Int) < ⌊f32_nearest (d * 65535)⌋ then 255 else 0) ∧
    (generate_square_wave p (f32.fin (1 / 2)) = 255 ↔ p < 32767) ∧
    (generate_square_wave p (f32.fin (1 / 2)) = 0 ↔ 32767 ≤ p) := by
  refine ⟨?_, ?_, ?_⟩
  · unfold generate_square_wave
    simp only []
    rw [← square_threshold_eq d h_d0 h_d1]
    by_cases h : p < f32.to_uint 16 (f32.mul (f32.fin d) (f32.of_int 65535))
    · have h2 : (p : Int) <
          ((f32.to_uint 16 (f32.mul (f32.fin d) (f32.of_int 65535)) : Nat) : Int) := by
        exact_mod_cast h
      rw [if_pos h, if_pos h2]
    · have h2 : ¬ (p : Int) <
          ((f32.to_uint 16 (f32.mul (f32.fin d) (f32.of_int 65535)) : Nat) : Int) := by
        exact_mod_cast h
      rw [if_neg h, if_neg h2]
  · unfold generate_square_wave
    simp only [square_threshold_half]
    by_cases h : p < 32767 <;> simp [h]
  · unfold generate_square_wave
    simp only [square_threshold_half]
    by_cases h : p < 32767
    · simp [h]
    · simp [h]; omega

/-- C11 witness: duty cycle 0.25 at phase index 16382. -/
theorem C11_square_threshold_witness :
    (0 : ℚ) ≤ 1 / 4 ∧ (1 / 4 : ℚ) ≤ 1 ∧ (16382 : Nat) < 65536 ∧
    generate_square_wave 16382 (f32.fin (1 / 4)) =
      (if ((16382 : Nat) : Int) < ⌊f32_nearest ((1 / 4 : ℚ) * 65535)⌋ then 255 else 0) :=
  ⟨by norm_num, by norm_num, by norm_num,
    (C11_square_threshold (1 / 4) 16382 (by norm_num) (by norm_num) (by norm_num)).1⟩

/-! ### Triangle wave -/

theorem triangle_value_rising (p : Nat) (h : p < 32768) :
    triangle_value p = ((p : Int) * 255) / 32767 := by
  unfold triangle_value
  rw [if_pos h]

theorem triangle_value_falling (p : Nat) (h : 32768 ≤ p) :
    triangle_value p = 255 - ((((p : Int) - 32768) * 255) / 32767) := by
  unfold triangle_value
  rw [if_neg (by omega)]

theorem triangle_value_range (p : Nat) (h : p < 65536) :
    0 ≤ triangle_value p ∧ triangle_value p ≤ 255 := by
  by_cases hp : p < 32768
  · rw [triangle_value_rising p hp]
    constructor <;> omega
  · rw [triangle_value_falling p (by omega)]
    constructor <;> omega

theorem generate_triangle_wave_eq (p : Nat) (h : p < 65536) :
    ((generate_triangle_wave p : Nat) : Int) = triangle_value p := by
  have hr := triangle_value_range p h
  unfold generate_triangle_wave int_to_uint8
  rw [Int.emod_eq_of_lt hr.1 (by omega), Int.toNat_of_nonneg hr.1]

theorem triangle_product_range (p : Nat) (h : p ≤ 65535) :
    0 ≤ triangle_product p ∧ triangle_product p < 2 ^ 31 := by
  unfold triangle_product
  split <;> constructor <;> omega

theorem triangle_value_of_product (p : Nat) :
    triangle_value p =
      if p < 32768 then triangle_product p / 32767 else 255 - triangle_product p / 32767 := by
  unfold triangle_value triangle_product
  split <;> rfl

/-- C12 counterexample: at phase index 2 the intermediate product `phase * 255`
of the computation is 510, outside `[0, 255]`, although the value handed to
the cast is 0. -/
theorem C12_intermediate_counterexample :
    (2 : Nat) ≤ 65535 ∧ triangle_product 2 = 510 ∧
    triangle_value 2 = triangle_product 2 / 32767 ∧
    ¬ (0 ≤ triangle_product 2 ∧ triangle_product 2 ≤ 255) := by
  have h : triangle_product 2 = 510 := by decide
  refine ⟨by norm_num, h, ?_, ?_⟩
  · rw [triangle_value_of_product]
    rfl
  · rw [h]
    decide

/-- C12 (amended): on 16-bit phase indices `generate_triangle_wave` is
non-decreasing on `[0, 32768)`, non-increasing on `[32768, 65535]`, takes the
value 255 at the midpoint 32768, which is its maximum, and the value 0 at 0 and
at 65535.  The intermediate `int` product is non-negative and below `2^31`
(it does exceed 255); the quotient and the value handed to the cast to
`uint8_t` lie in `[0, 255]`, so the cast never truncates. -/
theorem C12_triangle_shape :
    (∀ p q : Nat, p ≤ q → q < 32768 →
      generate_triangle_wave p ≤ generate_triangle_wave q) ∧
    (∀ p q : Nat, 32768 ≤ p → p ≤ q → q ≤ 65535 →
      generate_triangle_wave p ≥ generate_triangle_wave q) ∧
    generate_triangle_wave 32768 = 255 ∧
    (∀ p : Nat, p ≤ 65535 → generate_triangle_wave p ≤ generate_triangle_wave 32768) ∧
    generate_triangle_wave 0 = 0 ∧ generate_triangle_wave 65535 = 0 ∧
    (∀ p : Nat, p ≤ 65535 →
      (0 ≤ triangle_product p ∧ triangle_product p < 2 ^ 31) ∧
      (32768 ≤ p → 0 ≤ (((p : Int) - 32768) * 255) / 32767 ∧
        (((p : Int) - 32768) * 255) / 32767 ≤ 255) ∧
      (0 ≤ triangle_value p ∧ triangle_value p ≤ 255) ∧
      ((generate_triangle_wave p : Nat) : Int) = triangle_value p) := by
  have h_mid : generate_triangle_wave 32768 = 255 := by
    have h := generate_triangle_wave_eq 32768 (by norm_num)
    rw [triangle_value_falling 32768 (le_refl _)] at h
    omega
  refine ⟨?_, ?_, h_mid, ?_, ?_, ?_, ?_⟩
  · intro p q hpq hq
    have hp := generate_triangle_wave_eq p (by omega)
    have hq2 := generate_triangle_wave_eq q (by omega)
    rw [triangle_value_rising p (by omega)] at hp
    rw [triangle_value_rising q hq] at hq2
    omega
  · intro p q hp hpq hq
    have hp2 := generate_triangle_wave_eq p (by omega)
    have hq2 := generate_triangle_wave_eq q (by omega)
    rw [triangle_value_falling p hp] at hp2
    rw [triangle_value_falling q (by omega)] at hq2
    omega
  · intro p hp
    have h := generate_triangle_wave_eq p (by omega)
    have hr := triangle_value_range p (by omega)
    rw [h_mid]
    omega
  · have h := generate_triangle_wave_eq 0 (by norm_num)
    rw [triangle_value_rising 0 (by norm_num)] at h
    omega
  · have h := generate_triangle_wave_eq 65535 (by norm_num)
    rw [triangle_value_falling 65535 (by norm_num)] at h
    omega
  · intro p hp
    refine ⟨triangle_product_range p hp, ?_, triangle_value_range p (by omega),
      generate_triangle_wave_eq p (by omega)⟩
    intro h
    constructor <;> omega

/-- C12 witness: two indices on the rising half and two on the falling half. -/
theorem C12_triangle_shape_witness :
    generate_triangle_wave 100 ≤ generate_triangle_wave 20000 ∧
    generate_triangle_wave 40000 ≥ generate_triangle_wave 65000 :=
  ⟨C12_triangle_shape.1 100 20000 (by norm_num) (by norm_num),
   C12_triangle_shape.2.1 40000 65000 (by norm_num) (by norm_num) (by norm_num)⟩

/-- C13 counterexample: at `p = 1` the rising half gives 0 while the mirrored
index 65534 on the falling half gives 1. -/
theorem C13_triangle_symmetry_counterexample :
    (1 : Nat) ≤ 32767 ∧
    generate_triangle_wave 1 = 0 ∧ generate_triangle_wave (65535 - 1) = 1 ∧
    generate_triangle_wave 1 ≠ generate_triangle_wave (65535 - 1) := by
  have h1 : generate_triangle_wave 1 = 0 := by
    have h := generate_triangle_wave_eq 1 (by norm_num)
    rw [triangle_value_rising 1 (by norm_num)] at h
    omega
  have h2 : generate_triangle_wave (65535 - 1) = 1 := by
    have h := generate_triangle_wave_eq (65535 - 1) (by norm_num)
    rw [triangle_value_falling (65535 - 1) (by norm_num)] at h
    omega
  refine ⟨by norm_num, h1, h2, ?_⟩
  rw [h1, h2]
  decide

/-- C13 (amended): `generate_triangle_wave` is symmetric to within one step.
For every phase index `p` in `[0, 32767]` the mirrored falling-half value
`generate_triangle_wave (65535 - p)` equals `generate_triangle_wave p` when
`p = 0` or `p = 32767`, and equals `generate_triangle_wave p + 1` when
`0 < p < 32767`. -/
theorem C13_triangle_near_symmetry (p : Nat) (h_p : p ≤ 32767) :
    (p = 0 ∨ p = 32767 →
      generate_triangle_wave (65535 - p) = generate_triangle_wave p) ∧
    (0 < p ∧ p < 32767 →
      generate_triangle_wave (65535 - p) = generate_triangle_wave p + 1) := by
  have hr := generate_triangle_wave_eq p (by omega)
  have hf := generate_triangle_wave_eq (65535 - p) (by omega)
  rw [triangle_value_rising p (by omega)] at hr
  rw [triangle_value_falling (65535 - p) (by omega)] at hf
  have hcast : (((65535 - p : Nat) : Int)) = 65535 - (p : Int) := by omega
  rw [hcast] at hf
  constructor
  · intro h
    rcases h with h | h
    · subst h
      simp only [Nat.cast_zero] at hr hf
      omega
    · subst h
      simp only [Nat.cast_ofNat] at hr hf
      omega
  · intro h
    omega

/-- C13 witness: the ends of the rising half are mirrored exactly, an interior
index is off by one. -/
theorem C13_triangle_near_symmetry_witness :
    generate_triangle_wave (65535 - 32767) = generate_triangle_wave 32767 ∧
    generate_triangle_wave (65535 - 1000) = generate_triangle_wave 1000 + 1 :=
  ⟨(C13_triangle_near_symmetry 32767 (le_refl _)).1 (Or.inr rfl),
   (C13_triangle_near_symmetry 1000 (by norm_num)).2 ⟨by norm_num, by norm_num⟩⟩

/-! ### Sine wave -/

set_option maxRecDepth 100000 in
theorem sine_table_half_cycle : ∀ i : Nat, i < 256 →
    255 ≤ sine_table.getD i 0 + sine_table.getD ((i + 128) % 256) 0 ∧
    sine_table.getD i 0 + sine_table.getD ((i + 128) % 256) 0 ≤ 257 := by
  decide

theorem sine_index_of_lt (p : Nat) (h : p < 65536) : (p >>> 8) % 256 = p >>> 8 := by
  rw [Nat.shiftRight_eq_div_pow]
  apply Nat.mod_eq_of_lt
  omega

theorem sine_index_half_cycle (p : Nat) :
    (((p + 32768) % 65536) >>> 8) % 256 = (((p >>> 8) % 256) + 128) % 256 := by
  simp only [Nat.shiftRight_eq_div_pow]
  omega

/-- C14: for every 16-bit phase index `p`, `generate_sine_wave p` is the table
entry at index `p >> 8`; for every table index `i` in `[0, 255]` the entries
half a cycle apart satisfy `|sine_table[i] + sine_table[(i + 128) mod 256] - 256| ≤ 1`;
hence `|generate_sine_wave p + generate_sine_wave ((p + 32768) mod 65536) - 256| ≤ 1`
for every `p`. -/
theorem C14_sine_half_cycle :
    (∀ p : Nat, p < 65536 → generate_sine_wave p = sine_table.getD (p >>> 8) 0) ∧
    (∀ i : Nat, i < 256 →
      |(sine_table.getD i 0 : Int) + (sine_table.getD ((i + 128) % 256) 0 : Int) - 256| ≤ 1) ∧
    (∀ p : Nat, p < 65536 →
      |(generate_sine_wave p : Int) + (generate_sine_wave ((p + 32768) % 65536) : Int) - 256|
        ≤ 1) := by
  refine ⟨?_, ?_, ?_⟩
  · intro p hp
    unfold generate_sine_wave
    simp only [sine_index_of_lt p hp]
  · intro i hi
    have h := sine_table_half_cycle i hi
    rw [abs_le]
    constructor <;> omega
  · intro p _
    have h := sine_table_half_cycle ((p >>> 8) % 256) (Nat.mod_lt _ (by norm_num))
    unfold generate_sine_wave
    simp only [sine_index_half_cycle p]
    rw [abs_le]
    constructor <;> omega

/-- C14 witness: the phase index 3000 (table index 11, entries 162 and 93). -/
theorem C14_sine_half_cycle_witness :
    generate_sine_wave 3000 = sine_table.getD (3000 >>> 8) 0 ∧
    |(generate_sine_wave 3000 : Int) + (generate_sine_wave ((3000 + 32768) % 65536) : Int) - 256|
      ≤ 1 :=
  ⟨C14_sine_half_cycle.1 3000 (by norm_num), C14_sine_half_cycle.2.2 3000 (by norm_num)⟩

/-! ### Unrecognised waveform kinds -/

/-- After one `adsr_update` either the stage is unchanged, or it is the
immediate successor and the timer has been reset. -/
theorem adsr_update_stage_cases (s : sound_system_t) (dt : f32) :
    (adsr_update s dt).adsr_state = s.adsr_state ∨
    ((adsr_update s dt).adsr_timer = f32.fin 0 ∧
      ((s.adsr_state = ADSR_ATTACK ∧ (adsr_update s dt).adsr_state = ADSR_DECAY) ∨
       (s.adsr_state = ADSR_DECAY ∧ (adsr_update s dt).adsr_state = ADSR_SUSTAIN) ∨
       (s.adsr_state = ADSR_RELEASE ∧ (adsr_update s dt).adsr_state = ADSR_IDLE))) := by
  cases h : s.adsr_state with
  | ADSR_IDLE =>
    left
    rw [adsr_update_idle s dt h]; exact h
  | ADSR_SUSTAIN =>
    left
    rw [adsr_update_sustain s dt h, (adsr_update_clamp_state _).1]; exact h
  | ADSR_ATTACK =>
    cases ha : f32.gt s.attack_time f32.zero with
    | false =>
      right
      rw [adsr_update_attack_instant s dt h ha]
      exact ⟨rfl, Or.inl ⟨rfl, rfl⟩⟩
    | true =>
      cases hp : f32.ge (f32.div (f32.add s.adsr_timer dt) s.attack_time) f32.one with
      | true =>
        right
        rw [adsr_update_attack_done s dt h ha hp]
        exact ⟨rfl, Or.inl ⟨rfl, rfl⟩⟩
      | false =>
        left
        rw [adsr_update_attack_ramp s dt h ha hp, (adsr_update_clamp_state _).1]; exact h
  | ADSR_DECAY =>
    cases hd : f32.gt s.decay_time f32.zero with
    | false =>
      right
      rw [adsr_update_decay_instant s dt h hd, (adsr_update_clamp_state _).1,
        (adsr_update_clamp_state _).2]
      exact ⟨rfl, Or.inr (Or.inl ⟨rfl, rfl⟩)⟩
    | true =>
      cases hp : f32.ge (f32.div (f32.add s.adsr_timer dt) s.decay_time) f32.one with
      | true =>
        right
        rw [adsr_update_decay_done s dt h hd hp, (adsr_update_clamp_state _).1,
          (adsr_update_clamp_state _).2]
        exact ⟨rfl, Or.inr (Or.inl ⟨rfl, rfl⟩)⟩
      | false =>
        left
        rw [adsr_update_decay_ramp s dt h hd hp, (adsr_update_clamp_state _).1]; exact h
  | ADSR_RELEASE =>
    cases hr : f32.gt s.release_time f32.zero with
    | false =>
      right
      rw [adsr_update_release_instant s dt h hr]
      exact ⟨rfl, Or.inr (Or.inr ⟨rfl, rfl⟩)⟩
    | true =>
      cases hp : f32.ge (f32.div (f32.add s.adsr_timer dt) s.release_time) f32.one with
      | true =>
        right
        rw [adsr_update_release_done s dt h hr hp]
        exact ⟨rfl, Or.inr (Or.inr ⟨rfl, rfl⟩)⟩
      | false =>
        left
        rw [adsr_update_release_ramp s dt h hr hp, (adsr_update_clamp_state _).1]; exact h

/-- C16: `adsr_update` advances the envelope by at most one stage per call,
for every state and every `dt`.  An Idle state stays Idle with level 0, a
Sustain state stays Sustain; from Attack, Decay and Release the stage
afterwards is the same stage or its immediate successor (Decay, Sustain, Idle).
Whenever the stage changes, `adsr_timer` is 0 afterwards.  `adsr_note_off`
does not leave Idle either, so only `adsr_note_on` leaves Idle, and only
`adsr_note_on` or `adsr_note_off` leaves Sustain. -/
theorem C16_one_stage_per_update (s : sound_system_t) (dt : f32) :
    (s.adsr_state = ADSR_IDLE →
      (adsr_update s dt).adsr_state = ADSR_IDLE ∧ (adsr_update s dt).envelope_level = f32.fin 0) ∧
    (s.adsr_state = ADSR_SUSTAIN → (adsr_update s dt).adsr_state = ADSR_SUSTAIN) ∧
    (s.adsr_state = ADSR_ATTACK →
      (adsr_update s dt).adsr_state = ADSR_ATTACK ∨
      (adsr_update s dt).adsr_state = ADSR_DECAY) ∧
    (s.adsr_state = ADSR_DECAY →
      (adsr_update s dt).adsr_state = ADSR_DECAY ∨
      (adsr_update s dt).adsr_state = ADSR_SUSTAIN) ∧
    (s.adsr_state = ADSR_RELEASE →
      (adsr_update s dt).adsr_state = ADSR_RELEASE ∨
      (adsr_update s dt).adsr_state = ADSR_IDLE) ∧
    ((adsr_update s dt).adsr_state ≠ s.adsr_state → (adsr_update s dt).adsr_timer = f32.fin 0) ∧
    (s.adsr_state = ADSR_IDLE → (adsr_note_off s).adsr_state = ADSR_IDLE) ∧
    (adsr_note_on s).adsr_state = ADSR_ATTACK ∧
    (s.adsr_state = ADSR_SUSTAIN → (adsr_note_off s).adsr_state = ADSR_RELEASE) := by
  have hc := adsr_update_stage_cases s dt
  refine ⟨?_, ?_, ?_, ?_, ?_, ?_, ?_, rfl, ?_⟩
  · intro h
    rw [adsr_update_idle s dt h]
    exact ⟨h, rfl⟩
  · intro h
    rw [adsr_update_sustain s dt h, (adsr_update_clamp_state _).1]
    exact h
  · intro h
    rcases hc with hc | ⟨_, ⟨_, hc⟩ | ⟨hc, _⟩ | ⟨hc, _⟩⟩
    · left; rw [hc]; exact h
    · right; exact hc
    · rw [h] at hc; exact absurd hc (by decide)
    · rw [h] at hc; exact absurd hc (by decide)
  · intro h
    rcases hc with hc | ⟨_, ⟨hc, _⟩ | ⟨_, hc⟩ | ⟨hc, _⟩⟩
    · left; rw [hc]; exact h
    · rw [h] at hc; exact absurd hc (by decide)
    · right; exact hc
    · rw [h] at hc; exact absurd hc (by decide)
  · intro h
    rcases hc with hc | ⟨_, ⟨hc, _⟩ | ⟨hc, _⟩ | ⟨_, hc⟩⟩
    · left; rw [hc]; exact h
    · rw [h] at hc; exact absurd hc (by decide)
    · rw [h] at hc; exact absurd hc (by decide)
    · right; exact hc
  · intro hne
    rcases hc with hc | ⟨ht, _⟩
    · exact absurd hc hne
    · exact ht
  · intro h
    simp [adsr_note_off, h]
  · intro h
    simp [adsr_note_off, h]

/-- C16 witness: a very long update in Attack reaches Decay and no further, and
an update of the Idle initial state stays Idle at level 0. -/
theorem C16_one_stage_per_update_witness :
    ((adsr_update { g_sound_system with adsr_state := ADSR_ATTACK }
        (f32.fin 1000)).adsr_state = ADSR_ATTACK ∨
      (adsr_update { g_sound_system with adsr_state := ADSR_ATTACK }
        (f32.fin 1000)).adsr_state = ADSR_DECAY) ∧
    ((adsr_update g_sound_system (f32.fin 1000)).adsr_state = ADSR_IDLE ∧
      (adsr_update g_sound_system (f32.fin 1000)).envelope_level = f32.fin 0) :=
  ⟨(C16_one_stage_per_update { g_sound_system with adsr_state := ADSR_ATTACK }
      (f32.fin 1000)).2.2.1 rfl,
   (C16_one_stage_per_update g_sound_system (f32.fin 1000)).1 rfl⟩

/-! ### Mixer: the envelope never amplifies -/

/-- C17: for every raw byte `r` in `[0, 255]` and every level `l` in `[0, 1]`,
the value `(r - 128) * l + 128` lies between `min r 128` and `max r 128`, and so
does the binary32 value `fl(fl((r - 128) * l) + 128)` that
`generate_waveform_sample` computes for it, hence both lie in `[0, 255]`; the
conversion of the computed value to a byte is its plain integer part (the
reduction modulo 256 does not change it), and the returned byte lies between
`min r 128` and `max r 128` as well, that is between 128 and `r` on the side of
`r`. -/
theorem C17_envelope_never_amplifies (r : Nat) (l : ℚ)
    (h_r : r ≤ 255) (h_l0 : 0 ≤ l) (h_l1 : l ≤ 1) :
    (min (r : ℚ) 128 ≤ ((r : ℚ) - 128) * l + 128 ∧
      ((r : ℚ) - 128) * l + 128 ≤ max (r : ℚ) 128) ∧
    envelope_value r (f32.fin l) =
      f32.fin (f32_nearest (f32_nearest (((r : ℚ) - 128) * l) + 128)) ∧
    (min (r : ℚ) 128 ≤ f32_nearest (f32_nearest (((r : ℚ) - 128) * l) + 128) ∧
      f32_nearest (f32_nearest (((r : ℚ) - 128) * l) + 128) ≤ max (r : ℚ) 128) ∧
    (0 ≤ f32_nearest (f32_nearest (((r : ℚ) - 128) * l) + 128) ∧
      f32_nearest (f32_nearest (((r : ℚ) - 128) * l) + 128) ≤ 255) ∧
    ((apply_envelope r (f32.fin l) : Nat) : Int) =
      float_trunc (f32_nearest (f32_nearest (((r : ℚ) - 128) * l) + 128)) ∧
    (min r 128 ≤ apply_envelope r (f32.fin l) ∧ apply_envelope r (f32.fin l) ≤ max r 128) ∧
    apply_envelope r (f32.fin l) ≤ 255 := by
  have hv := envelope_value_fin r l h_r h_l0 h_l1
  have hr := envelope_value_byte_range r l h_r h_l0 h_l1
  have hfloor := apply_envelope_floor r l h_r h_l0 h_l1
  have hlo : ((min r 128 : Nat) : Int) ≤
      ⌊f32_nearest (f32_nearest (((r : ℚ) - 128) * l) + 128)⌋ := by
    rw [Int.le_floor]
    have : (((min r 128 : Nat) : Int) : ℚ) = min (r : ℚ) 128 := by
      push_cast
      rfl
    rw [this]
    exact hv.2.1
  have hhi : ⌊f32_nearest (f32_nearest (((r : ℚ) - 128) * l) + 128)⌋ ≤
      ((max r 128 : Nat) : Int) := by
    have h1 : ((⌊f32_nearest (f32_nearest (((r : ℚ) - 128) * l) + 128)⌋ : Int) : ℚ)
        ≤ (((max r 128 : Nat) : Int) : ℚ) := by
      have : (((max r 128 : Nat) : Int) : ℚ) = max (r : ℚ) 128 := by
        push_cast
        rfl
      rw [this]
      exact le_trans (Int.floor_le _) hv.2.2
    exact_mod_cast h1
  have hbyte : min r 128 ≤ apply_envelope r (f32.fin l) ∧
      apply_envelope r (f32.fin l) ≤ max r 128 := by
    rw [← hfloor] at hlo hhi
    exact ⟨by exact_mod_cast hlo, by exact_mod_cast hhi⟩
  refine ⟨exact_mix_bounds r l h_l0 h_l1, hv.1, hv.2, hr, ?_, hbyte, ?_⟩
  · rw [hfloor, float_trunc_of_nonneg _ hr.1]
  · have : max r 128 ≤ 255 := max_le h_r (by norm_num)
    exact le_trans hbyte.2 this

/-- C17 witness: the raw byte 10 at level 0.5 gives a byte between 10 and 128. -/
theorem C17_envelope_never_amplifies_witness :
    (10 : Nat) ≤ 255 ∧ (0 : ℚ) ≤ 1 / 2 ∧ (1 / 2 : ℚ) ≤ 1 ∧
    (min 10 128 ≤ apply_envelope 10 (f32.fin (1 / 2)) ∧
      apply_envelope 10 (f32.fin (1 / 2)) ≤ max 10 128) :=
  ⟨by norm_num, by norm_num, by norm_num,
    (C17_envelope_never_amplifies 10 (1 / 2) (by norm_num) (by norm_num)
      (by norm_num)).2.2.2.2.2.1⟩

/-! ### Sample values of the binary32 computations -/

/-- Evaluation of the rounding at a positive value away from a tie. -/
theorem f32_nearest_eval (x : ℚ) (e n : Int) (hx : 0 ≤ x) (he : -126 ≤ e)
    (h1 : (2 : ℚ) ^ e ≤ x) (h2 : x < (2 : ℚ) ^ (e + 1))
    (h3 : (n : ℚ) - 1 / 2 < x / (2 : ℚ) ^ (e - 23))
    (h4 : x / (2 : ℚ) ^ (e - 23) < (n : ℚ) + 1 / 2) :
    f32_nearest x = (n : ℚ) * (2 : ℚ) ^ (e - 23) := by
  have hexp : f32_exponent x = e := by
    apply f32_exponent_eq x e he <;> rw [abs_of_nonneg hx] <;> assumption
  exact f32_nearest_eq_of_binade x e n hx hexp (round_half_even_eq_of_lt _ n h3 h4)

/-- At 440 Hz the stored increment is 42852280, while the exact quotient is
about 42852281.41: the binary32 quotient has a spacing of 4 there. -/
theorem update_phase_accumulator_440 :
    (update_phase_accumulator g_sound_system).phase_increment = 42852280 := by
  have hq := (phase_quotient_f32 440 (by norm_num) (by norm_num)).1
  have hprod : f32_nearest ((440 : ℚ) * 4294967296) = 1889785610240 := by
    have h := f32_nearest_scaled_int 55 35 (by norm_num) (by norm_num)
    have e : ((55 : Int) : ℚ) * (2 : ℚ) ^ (35 : Int) = 440 * 4294967296 := by norm_num
    rw [e] at h; rw [h]; norm_num
  have hv : f32_nearest ((1889785610240 : ℚ) / 44100) = 42852280 := by
    rw [f32_nearest_eval _ 25 10713070 (by norm_num) (by norm_num) (by norm_num)
      (by norm_num) (by norm_num) (by norm_num)]
    norm_num
  rw [hprod, hv] at hq
  simp only [update_phase_accumulator]
  show f32.to_uint 32 (f32.div (f32.mul (f32.fin 440) (f32.fin 4294967296))
    (f32.of_int (SAMPLE_RATE : Int))) = 42852280
  rw [hq]
  have := float_to_uint_natCast 32 42852280 (by norm_num)
  simpa [f32.to_uint] using this

/-- At 20 Hz the stored increment is 1947831, while the exact quotient is about
1947830.97: the binary32 quotient rounds up to an integer before the cast. -/
theorem update_phase_accumulator_20 :
    (update_phase_accumulator
      { g_sound_system with frequency := f32.fin 20 }).phase_increment = 1947831 := by
  have hq := (phase_quotient_f32 20 (by norm_num) (by norm_num)).1
  have hprod : f32_nearest ((20 : ℚ) * 4294967296) = 85899345920 := by
    have h := f32_nearest_scaled_int 5 34 (by norm_num) (by norm_num)
    have e : ((5 : Int) : ℚ) * (2 : ℚ) ^ (34 : Int) = 20 * 4294967296 := by norm_num
    rw [e] at h; rw [h]; norm_num
  have hv : f32_nearest ((85899345920 : ℚ) / 44100) = 1947831 := by
    rw [f32_nearest_eval _ 20 15582648 (by norm_num) (by norm_num) (by norm_num)
      (by norm_num) (by norm_num) (by norm_num)]
    norm_num
  rw [hprod, hv] at hq
  simp only [update_phase_accumulator]
  rw [hq]
  have := float_to_uint_natCast 32 1947831 (by norm_num)
  simpa [f32.to_uint] using this

/-- For the raw byte 138 at level `0.7f` the envelope step gives 135: the
product `10 * 0.7f` rounds to 7.0, although the exact value is below 135. -/
theorem apply_envelope_138 :
    apply_envelope 138 (f32.fin (11744051 / 16777216)) = 135 ∧
    (((138 : Nat) : ℚ) - 128) * (11744051 / 16777216) + 128 < 135 := by
  constructor
  · have h := apply_envelope_floor 138 (11744051 / 16777216) (by norm_num) (by norm_num)
      (by norm_num)
    have h1 : f32_nearest ((((138 : Nat) : ℚ) - 128) * (11744051 / 16777216)) = 7 := by
      rw [f32_nearest_eval _ 2 14680064 (by norm_num) (by norm_num) (by norm_num)
        (by norm_num) (by norm_num) (by norm_num)]
      norm_num
    have h2 : f32_nearest ((7 : ℚ) + 128) = 135 := by
      have := f32_nearest_natCast 135 (by norm_num)
      norm_num at this ⊢
      exact this
    rw [h1, h2] at h
    have hfl : ⌊(135 : ℚ)⌋ = 135 := by
      rw [Int.floor_eq_iff]; norm_num
    rw [hfl] at h
    exact_mod_cast h
  · norm_num

/-- At the duty cycle `0.5 + 2^-17` the product with 65535 rounds up to 32768.0,
so the phase index 32767 is still high, although it is not below the integer
part 32767 of the exact product. -/
theorem generate_square_wave_rounded_threshold :
    generate_square_wave 32767 (f32.fin (65537 / 131072)) = 255 ∧
    ⌊(65537 / 131072 : ℚ) * 65535⌋ = 32767 := by
  constructor
  · have h := square_threshold_eq (65537 / 131072) (by norm_num) (by norm_num)
    have hv : f32_nearest ((65537 / 131072 : ℚ) * 65535) = 32768 := by
      rw [f32_nearest_eval _ 14 16777216 (by norm_num) (by norm_num) (by norm_num)
        (by norm_num) (by norm_num) (by norm_num)]
      norm_num
    have hfl : ⌊(32768 : ℚ)⌋ = 32768 := by
      rw [Int.floor_eq_iff]; norm_num
    rw [hv, hfl] at h
    have ht : f32.to_uint 16 (f32.mul (f32.fin (65537 / 131072)) (f32.of_int 65535))
        = 32768 := by exact_mod_cast h
    unfold generate_square_wave
    simp only [ht]
    decide
  · rw [Int.floor_eq_iff]; norm_num

end SoundExplorer
